import Mathlib

/-!
Verification of the metis repository's core against its specification.

The Python source is shallowly embedded: Python strings are modelled as
`List Char` (`PyStr`), dictionaries as ordered association lists with
Python's insert-or-overwrite semantics, network effects as explicit
oracle parameters, and fallible operations as `Option`.
-/

set_option maxRecDepth 4000

/-- Python strings are modelled as lists of characters. -/
abbrev PyStr := List Char

/-- Convert a Lean string literal to the `PyStr` model. -/
def pystr (s : String) : PyStr := s.toList

namespace Metis

/-! ## Basic Python string primitives -/

/-- Python `str.strip()` whitespace set, restricted to the ASCII range the
repository's data uses. -/
def wsChar (c : Char) : Bool :=
  c = ' ' || c = '\t' || c = '\n' || c = '\r' || c = '\x0b' || c = '\x0c'

/-- Strip characters satisfying `p` from both ends (Python `str.strip`). -/
def stripBoth (p : Char → Bool) (l : PyStr) : PyStr :=
  ((l.dropWhile p).reverse.dropWhile p).reverse

/-- Python `str.strip()` (whitespace). -/
def pyStrip (l : PyStr) : PyStr := stripBoth wsChar l

/-- Python `str.strip(chars)` for a single character. -/
def pyStripChar (c : Char) (l : PyStr) : PyStr := stripBoth (fun x => x = c) l

/-- Earliest index at which `pat` occurs as a contiguous sublist of `l`
(Python `in` / `str.find`). -/
def subIdx (pat : PyStr) : PyStr → Option Nat
  | [] => if pat = [] then some 0 else none
  | c :: rest =>
    if pat.isPrefixOf (c :: rest) then some 0
    else (subIdx pat rest).map (· + 1)

/-- Python substring containment: `pat in l`. -/
def containsSub (l pat : PyStr) : Bool := (subIdx pat l).isSome

/-- Python `s.split(sep, 1)` at a single separator character: the text
before the first occurrence and the text after it. -/
def splitFirst (sep : Char) : PyStr → Option (PyStr × PyStr)
  | [] => none
  | c :: rest =>
    if c = sep then some ([], rest)
    else (splitFirst sep rest).map (fun p => (c :: p.1, p.2))

/-- Python `s.split(sep)` for a single separator character. -/
def splitOnChar (sep : Char) : PyStr → List PyStr
  | [] => [[]]
  | c :: rest =>
    let r := splitOnChar sep rest
    if c = sep then [] :: r
    else match r with
      | [] => [[c]]
      | h :: t => (c :: h) :: t

/-- Python `sep.join(parts)` for a one-character separator. -/
def joinChar (sep : Char) : List PyStr → PyStr
  | [] => []
  | [l] => l
  | l :: l2 :: ls => l ++ sep :: joinChar sep (l2 :: ls)

/-! ## Media scan patterns (src/metis/processors/__init__.py)

The four `re.findall` scans are modelled operationally with the exact
backtracking semantics of the patterns.  Each top-level scan carries a
fuel argument bounded by the text length; every iteration either consumes
at least one character or moves one position right, so the fuel is never
exhausted on the text it measures. -/

/-- The lazy `.*?\]\(` step of `!\[.*?\]\((.*?)\)`: inside one line, find
the first `](` and return the remainder after it (a later `](` can never
succeed when an earlier one fails, since both group scans stop at the same
newline or end). -/
def scanAltEnd : PyStr → Option PyStr
  | [] => none
  | c :: rest =>
    if c = '\n' then none
    else if c = ']' then
      match rest with
      | '(' :: rest2 => some rest2
      | _ => scanAltEnd rest
    else scanAltEnd rest

/-- The lazy `(.*?)\)` step: capture up to the first `)` on the line. -/
def scanGroupEnd : PyStr → Option (PyStr × PyStr)
  | [] => none
  | c :: rest =>
    if c = '\n' then none
    else if c = ')' then some ([], rest)
    else (scanGroupEnd rest).map (fun p => (c :: p.1, p.2))

/-- One anchored attempt of `!\[.*?\]\((.*?)\)`. -/
def matchMdImgAt (l : PyStr) : Option (PyStr × PyStr) :=
  match l with
  | '!' :: '[' :: rest =>
    match scanAltEnd rest with
    | some rest2 =>
      match scanGroupEnd rest2 with
      | some (g, rest3) => some (g, rest3)
      | none => none
    | none => none
  | _ => none

/-- `re.findall(r"!\[.*?\]\((.*?)\)", markdown)`. -/
def findallMdImgFuel : Nat → PyStr → List PyStr
  | 0, _ => []
  | _ + 1, [] => []
  | fuel + 1, c :: rest =>
    match matchMdImgAt (c :: rest) with
    | some (g, r) => g :: findallMdImgFuel fuel r
    | none => findallMdImgFuel fuel rest

def findallMdImg (l : PyStr) : List PyStr := findallMdImgFuel l.length l

/-- The candidate positions of the greedy `[^>]+src="` of
`<img[^>]+src="([^"]+)"`: every occurrence of `src="` preceded by at
least one non-`>` character, scanning stopping at the first `>`.  The
suffix after each `src="` occurrence is collected in left-to-right
order. -/
def srcCandsGo : PyStr → List PyStr
  | [] => []
  | c :: rest =>
    (if (pystr "src=\"").isPrefixOf (c :: rest)
      then [(c :: rest).drop 5] else [])
    ++ (if c = '>' then [] else srcCandsGo rest)

def srcCandidates : PyStr → List PyStr
  | [] => []
  | c :: rest => if c = '>' then [] else srcCandsGo rest

/-- The greedy `([^"]+)"` step. -/
def takeQuoteGroup (s : PyStr) : Option (PyStr × PyStr) :=
  let run := s.takeWhile (fun c => c ≠ '"')
  if run ≠ [] then
    match s.drop run.length with
    | '"' :: rest2 => some (run, rest2)
    | _ => none
  else none

/-- Greedy backtracking: the last candidate whose group completes wins. -/
def pickSrc : List PyStr → Option (PyStr × PyStr)
  | [] => none
  | c :: cs =>
    match pickSrc cs with
    | some r => some r
    | none => takeQuoteGroup c

/-- One anchored attempt of `<img[^>]+src="([^"]+)"`. -/
def matchImgSrcAt (l : PyStr) : Option (PyStr × PyStr) :=
  if (pystr "<img").isPrefixOf l then
    pickSrc (srcCandidates (l.drop 4))
  else none

/-- `re.findall(r'<img[^>]+src="([^"]+)"', markdown)`. -/
def findallImgSrcFuel : Nat → PyStr → List PyStr
  | 0, _ => []
  | _ + 1, [] => []
  | fuel + 1, c :: rest =>
    match matchImgSrcAt (c :: rest) with
    | some (g, r) => g :: findallImgSrcFuel fuel r
    | none => findallImgSrcFuel fuel rest

def findallImgSrc (l : PyStr) : List PyStr := findallImgSrcFuel l.length l

/-- The `[^'"\s]` class of the bare-URL patterns. -/
def cdnClass1 (c : Char) : Bool :=
  !(c = '\'' || c = '"' || wsChar c)

/-- The `[^\s'"<>]` class of the bare-URL patterns. -/
def cdnClass2 (c : Char) : Bool :=
  !(wsChar c || c = '\'' || c = '"' || c = '<' || c = '>')

/-- Candidate positions of the greedy `[^'"\s]+<domain>` part: occurrences
of the domain literal preceded by at least one class character, collected
with their positions. -/
def cdnCandPosGo (domain : PyStr) : PyStr → Nat → List Nat
  | [], _ => []
  | c :: rest, k =>
    (if domain.isPrefixOf (c :: rest) then [k] else [])
    ++ (if cdnClass1 c then cdnCandPosGo domain rest (k + 1) else [])

def cdnCandPositions (domain : PyStr) (m : PyStr) : List Nat :=
  match m with
  | [] => []
  | c :: rest => if cdnClass1 c then cdnCandPosGo domain rest 1 else []

/-- Greedy backtracking over the candidates (last first); on success the
whole matched text after `https://` and the remainder are returned. -/
def cdnPick (domain m : PyStr) : List Nat → Option (PyStr × PyStr)
  | [] => none
  | p :: ps =>
    match cdnPick domain m ps with
    | some r => some r
    | none =>
      let run := (m.drop (p + domain.length)).takeWhile cdnClass2
      if run ≠ [] then
        some (m.take (p + domain.length + run.length),
          m.drop (p + domain.length + run.length))
      else none

/-- One anchored attempt of `https://[^'"\s]+<domain>[^\s'"<>]+`. -/
def matchCdnAt (domain l : PyStr) : Option (PyStr × PyStr) :=
  if (pystr "https://").isPrefixOf l then
    match cdnPick domain (l.drop 8) (cdnCandPositions domain (l.drop 8)) with
    | some (matched, rem) => some (pystr "https://" ++ matched, rem)
    | none => none
  else none

/-- `re.findall` for the bare CDN-URL patterns (no capture group: the full
match is collected). -/
def findallCdnFuel (domain : PyStr) : Nat → PyStr → List PyStr
  | 0, _ => []
  | _ + 1, [] => []
  | fuel + 1, c :: rest =>
    match matchCdnAt domain (c :: rest) with
    | some (g, r) => g :: findallCdnFuel domain fuel r
    | none => findallCdnFuel domain fuel rest

def findallCdn (domain l : PyStr) : List PyStr :=
  findallCdnFuel domain l.length l

/-- `list(set(urls))`: Python's set iteration order is unspecified; it is
modelled as first-occurrence order.  The claims rely only on the members
and their uniqueness. -/
def pySetList (l : List PyStr) : List PyStr :=
  l.foldl (fun acc x => if x ∈ acc then acc else acc ++ [x]) []

/-- `extract_image_urls(markdown)`: the four pattern scans, de-duplicated
into a set. -/
def extract_image_urls (markdown : PyStr) : List PyStr :=
  pySetList (findallMdImg markdown ++ findallImgSrc markdown
    ++ findallCdn (pystr ".xiaohongshu.com") markdown
    ++ findallCdn (pystr ".feishu.cn") markdown)

/-! ## Workflow state machine (src/metis/workflow/__init__.py) -/

/-- `ContentStatus` enumeration. -/
inductive ContentStatus where
  | pending
  | extracted
  | read
  | valuable
  | archived
  | creating
  | knowledge_base
deriving DecidableEq, Repr

/-- `ContentRecord` dataclass.  Timestamps are opaque values supplied by the
caller (`datetime.now()` is abstracted as an explicit argument). -/
structure ContentRecord where
  url : PyStr
  title : PyStr
  platform : PyStr
  status : ContentStatus
  created_at : Nat
  extracted_at : Option Nat := none
  read_at : Option Nat := none
  file_path : Option PyStr := none
  is_english : Bool := false
  has_translation : Bool := false
deriving DecidableEq, Repr

/-- `VALID_TRANSITIONS` lookup table. -/
def VALID_TRANSITIONS (s : ContentStatus) : List ContentStatus :=
  match s with
  | .pending => [.extracted]
  | .extracted => [.read]
  | .read => [.valuable, .archived]
  | .valuable => [.creating, .knowledge_base]
  | .archived => []
  | .creating => []
  | .knowledge_base => []

/-- `can_transition(current, target)`. -/
def can_transition (current target : ContentStatus) : Bool :=
  target ∈ VALID_TRANSITIONS current

/-- `transition_record(record, new_status)`; `raise ValueError` is modelled
as `Except.error`, and the current wall-clock time as the argument `now`. -/
def transition_record (now : Nat) (record : ContentRecord)
    (new_status : ContentStatus) : Except PyStr ContentRecord :=
  if ¬ can_transition record.status new_status then
    .error (pystr "Invalid transition")
  else
    let record :=
      if new_status = .extracted then { record with extracted_at := some now }
      else if new_status = .read then { record with read_at := some now }
      else record
    .ok { record with status := new_status }

/-! ## Language detection (src/metis/processors/translation.py) -/

/-- Characters matched by `[a-zA-Z]`. -/
def isAsciiLetter (c : Char) : Bool :=
  (('a' ≤ c && c ≤ 'z') || ('A' ≤ c && c ≤ 'Z'))

/-- Characters matched by
`[a-zA-Z一-鿿぀-ゟ゠-ヿ]` (ASCII letters, CJK
ideographs, hiragana, katakana). -/
def isLetterClass (c : Char) : Bool :=
  isAsciiLetter c
  || ('一' ≤ c && c ≤ '鿿')
  || ('぀' ≤ c && c ≤ 'ゟ')
  || ('゠' ≤ c && c ≤ 'ヿ')

/-- `is_english_text(text)`.  The float ratio comparison `ratio > 0.8` is
modelled exactly over the rationals. -/
def is_english_text (text : PyStr) : Bool :=
  let english_chars := (text.filter isAsciiLetter).length
  let total_chars := (text.filter isLetterClass).length
  if total_chars = 0 then false
  else decide ((english_chars : ℚ) / (total_chars : ℚ) > 8 / 10)

/-! ## Platform detection (src/metis/fetchers/platform.py) -/

/-- `PlatformInfo` dataclass. -/
structure PlatformInfo where
  name : PyStr
  requires_login : Bool
  referer : Option PyStr := none
deriving DecidableEq, Repr

/-- The `PLATFORMS` table. -/
def PLATFORMS : List (PyStr × PlatformInfo) :=
  [ (pystr "wechat",
      ⟨pystr "wechat", false, some (pystr "https://mp.weixin.qq.com/")⟩)
  , (pystr "xiaohongshu",
      ⟨pystr "xiaohongshu", false, some (pystr "https://www.xiaohongshu.com/")⟩)
  , (pystr "zhihu",
      ⟨pystr "zhihu", false, some (pystr "https://www.zhihu.com/")⟩)
  , (pystr "douyin",
      ⟨pystr "douyin", false, some (pystr "https://www.douyin.com/")⟩)
  , (pystr "bilibili",
      ⟨pystr "bilibili", false, some (pystr "https://www.bilibili.com/")⟩)
  , (pystr "taobao",
      ⟨pystr "taobao", true, some (pystr "https://www.taobao.com/")⟩)
  , (pystr "jd",
      ⟨pystr "jd", true, some (pystr "https://www.jd.com/")⟩)
  , (pystr "weibo",
      ⟨pystr "weibo", false, some (pystr "https://weibo.com/")⟩)
  , (pystr "toutiao",
      ⟨pystr "toutiao", false, some (pystr "https://www.toutiao.com/")⟩)
  , (pystr "twitter",
      ⟨pystr "twitter", false, some (pystr "https://twitter.com/")⟩)
  ]

/-- Table lookup `PLATFORMS[name]` (every key used by `detect_platform`
is present in the table; the fallback is never reached). -/
def platformsGet (name : PyStr) : PlatformInfo :=
  match (PLATFORMS.find? (fun p => p.1 = name)) with
  | some p => p.2
  | none => ⟨pystr "unknown", false, none⟩

/-- `urllib.parse.urlparse(url).netloc`: when the text after an optional
`scheme:` begins with `//`, the host part extends to the next `/`, `?`
or `#`; otherwise it is empty.  Scheme detection follows `urlsplit`: a
leading run of alphanumeric, `+`, `-` or `.` characters starting with a
letter, terminated by `:`. -/
def urlparseNetloc (url : PyStr) : PyStr :=
  let rest :=
    match splitFirst ':' url with
    | some (scheme, after) =>
      if scheme ≠ [] ∧ (scheme.headD ' ').isAlpha ∧
          scheme.all (fun c => c.isAlphanum || c = '+' || c = '-' || c = '.') then
        after
      else url
    | none => url
  match rest with
  | '/' :: '/' :: tail =>
    tail.takeWhile (fun c => c ≠ '/' ∧ c ≠ '?' ∧ c ≠ '#')
  | _ => []

/-- `detect_platform(url)` (the computed `path` variable is unused by the
source and omitted). -/
def detect_platform (url : PyStr) : PlatformInfo :=
  let host := (urlparseNetloc url).map Char.toLower
  if containsSub host (pystr "mp.weixin.qq.com")
      || containsSub host (pystr "weixin.qq.com") then
    platformsGet (pystr "wechat")
  else if containsSub host (pystr "xiaohongshu.com")
      || containsSub host (pystr "xhslink.com") then
    platformsGet (pystr "xiaohongshu")
  else if containsSub host (pystr "zhihu.com") then
    platformsGet (pystr "zhihu")
  else if containsSub host (pystr "douyin.com") then
    platformsGet (pystr "douyin")
  else if containsSub host (pystr "bilibili.com") then
    platformsGet (pystr "bilibili")
  else if containsSub host (pystr "taobao.com") then
    platformsGet (pystr "taobao")
  else if containsSub host (pystr "jd.com")
      || containsSub host (pystr "jd.hk") then
    platformsGet (pystr "jd")
  else if containsSub host (pystr "weibo.com")
      || containsSub host (pystr "weibo.cn") then
    platformsGet (pystr "weibo")
  else if containsSub host (pystr "toutiao.com") then
    platformsGet (pystr "toutiao")
  else if containsSub host (pystr "twitter.com")
      || containsSub host (pystr "x.com") then
    platformsGet (pystr "twitter")
  else
    ⟨pystr "unknown", false, none⟩

/-! ## Fetch coordinator (src/metis/fetchers/__init__.py)

Each acquisition tier performs network I/O; in the embedding a tier is an
oracle `PyStr → Option α` giving the (deterministic) outcome of attempting
each URL, with `none` for any failure.  The coordinator never inspects the
content, so the content type is a parameter. -/

/-- `ContentFetcher.fetch(url)` over tier oracles `firecrawl`, `jina`,
`playwright` (the declared `self.fetchers` order). -/
def ContentFetcher.fetch {α : Type} (firecrawl jina playwright : PyStr → Option α)
    (url : PyStr) : Option α :=
  let platform := detect_platform url
  let tryDefault : Option α :=
    match firecrawl url with
    | some r => some r
    | none =>
      match jina url with
      | some r => some r
      | none => playwright url
  if platform.name = pystr "wechat" then
    match playwright url with
    | some r => some r
    | none => tryDefault
  else tryDefault

/-- Modelled from the spec (section 4.3), for the refinement comparison with
`ContentFetcher.fetch`: classify the URL; when the platform requires the
specialized login-walled handling (the wechat profile), attempt the
headless-browser tier first, returning immediately on success; otherwise,
and as fallback, return the first non-none result of the fixed order
hosted-extraction-API, readability-proxy-API, headless-browser; `none`
when every tier yields `none`. -/
def fetchSpec {α : Type} (firecrawl jina playwright : PyStr → Option α)
    (url : PyStr) : Option α :=
  let firstHit : Option α :=
    match [firecrawl url, jina url, playwright url].find? Option.isSome with
    | some r => r
    | none => none
  if (detect_platform url).name = pystr "wechat" then
    match playwright url with
    | some r => some r
    | none => firstHit
  else firstHit

/-! ## Frontmatter codec (src/metis/storage/database.py)

Header fields hold strings, booleans or lists of strings.  Python dicts
are modelled as ordered association lists with insert-or-overwrite
semantics. -/

/-- A frontmatter value: string, boolean, or list of strings. -/
inductive FVal where
  | s (v : PyStr)
  | b (v : Bool)
  | l (v : List PyStr)
deriving DecidableEq, Repr

/-- An ordered field mapping (Python dict of frontmatter fields). -/
abbrev FMap := List (PyStr × FVal)

/-- Python `d[k] = v`: overwrite in place keeping the original position,
else append at the end. -/
def dictInsert (d : FMap) (k : PyStr) (v : FVal) : FMap :=
  if d.any (fun p => p.1 = k) then
    d.map (fun p => if p.1 = k then (k, v) else p)
  else d ++ [(k, v)]

/-- Python `d.update(u)`: apply each entry of `u` in order. -/
def dictUpdate (d u : FMap) : FMap :=
  u.foldl (fun acc p => dictInsert acc p.1 p.2) d

/-- Python `d.get(k)` on the ordered mapping. -/
def fmLookup (d : FMap) (k : PyStr) : Option FVal :=
  match d with
  | [] => none
  | p :: ps => if p.1 = k then some p.2 else fmLookup ps k

/-- Earliest occurrence of the closing marker `"\n---"` at index `start`
or later. -/
def fmFindClose (rest : PyStr) (start : Nat) : Option Nat :=
  (subIdx (pystr "\n---") (rest.drop start)).map (· + start)

/-- Backtracking of `\s*` in `re.match(r'^---\s*\n(.*?)\n---', content,
re.DOTALL)`: the greedy `\s*` prefers the longest whitespace run, so the
`\n` of the pattern consumes the last newline of the leading whitespace
run for which the lazy group can still reach a closing `\n---`.
`fmTryFrom rest (i+1)` tries the candidate newline positions `i, i-1, …,
0` in that order, returning the group's start index and the index of the
closing `\n`. -/
def fmTryFrom (rest : PyStr) : Nat → Option (Nat × Nat)
  | 0 => none
  | (i+1) =>
    if rest.getD i ' ' = '\n' then
      match fmFindClose rest (i + 1) with
      | some p => some (i + 1, p)
      | none => fmTryFrom rest i
    else fmTryFrom rest i

/-- The frontmatter regex of `_read_frontmatter` and
`_write_frontmatter_update`: on success, the group text (the text between
the delimiter lines) and the index just past the closing `---`, in
characters from the start of the content. -/
def fmMatch (content : PyStr) : Option (PyStr × Nat) :=
  if (pystr "---").isPrefixOf content then
    let rest := content.drop 3
    let w := (rest.takeWhile wsChar).length
    match fmTryFrom rest w with
    | some (s, p) => some (((rest.drop s).take (p - s), 3 + p + 4))
    | none => none
  else none

/-- The keyed half of `_read_frontmatter`'s line loop, after the colon
split and stripping: store either a parsed bracketed list or a
quote-stripped scalar. -/
def parseKV (result : FMap) (key value : PyStr) : FMap :=
  if value.head? = some '[' ∧ value.getLast? = some ']' then
    let inner := (value.drop 1).dropLast
    let items := (splitOnChar ',' inner).map
      (fun item => pyStripChar '\'' (pyStripChar '"' (pyStrip item)))
    dictInsert result key (.l (items.filter (· ≠ [])))
  else
    dictInsert result key (.s (pyStripChar '\'' (pyStripChar '"' value)))

/-- One iteration of `_read_frontmatter`'s line loop: split at the first
colon, strip both halves, and store the parsed value. -/
def parseFMLine (result : FMap) (line : PyStr) : FMap :=
  match splitFirst ':' line with
  | none => result
  | some (rawKey, rawValue) =>
    parseKV result (pyStrip rawKey) (pyStrip rawValue)

/-- `_read_frontmatter(content)`. -/
def _read_frontmatter (content : PyStr) : FMap :=
  match fmMatch content with
  | none => []
  | some (text, _) => (splitOnChar '\n' text).foldl parseFMLine []

/-- Python `sep.join(parts)` for a multi-character separator. -/
def joinStr (sep : PyStr) : List PyStr → PyStr
  | [] => []
  | [x] => x
  | x :: y :: t => x ++ sep ++ joinStr sep (y :: t)

/-- The f-string `f'"{item}"'`. -/
def quoteItem (i : PyStr) : PyStr := '"' :: (i ++ ['"'])

/-- Value rendering in `_write_frontmatter_update`'s rebuild loop:
booleans lowercase and unquoted, lists bracketed with quoted items,
strings quoted. -/
def renderFVal : FVal → PyStr
  | .b v => if v then pystr "true" else pystr "false"
  | .l items => '[' :: (joinStr (pystr ", ") (items.map quoteItem) ++ [']'])
  | .s v => quoteItem v

/-- One rebuilt header line `f"{key}: {value}"`. -/
def renderFMLine (p : PyStr × FVal) : PyStr :=
  p.1 ++ pystr ": " ++ renderFVal p.2

/-- The rebuilt header block `"\n".join(["---"] + lines + ["---"])`. -/
def serializeFM (fields : FMap) : PyStr :=
  joinChar '\n' ([pystr "---"] ++ fields.map renderFMLine ++ [pystr "---"])

/-- `_write_frontmatter_update` on the file's text: `none` when the update
is abandoned (no leading delimiter, or no closing delimiter found), in
which case the file is not rewritten; otherwise the full new file content
(rebuilt header followed by the original bytes after the closing
delimiter). -/
def _write_frontmatter_update (content : PyStr) (updates : FMap) :
    Option PyStr :=
  if ¬ (pystr "---").isPrefixOf content then none
  else
    match fmMatch content with
    | none => none
    | some (_, endPos) =>
      let existing := _read_frontmatter content
      let merged := dictUpdate existing updates
      some (serializeFM merged ++ content.drop endPos)

/-- The bool-to-string collapse performed by a serialize/parse round trip:
parsing never reconstructs booleans, it returns their lowercase renderings
as strings. -/
def boolFix : FVal → FVal
  | .b v => .s (if v then pystr "true" else pystr "false")
  | x => x

/-! Well-formedness of fields: the fragment of the codec's domain on which
the round trip is the identity (up to `boolFix`). -/

/-- A key that survives the line codec: no colon or newline, no leading or
trailing whitespace, not starting with a hyphen. -/
def wfKey (k : PyStr) : Prop :=
  (∀ c ∈ k, c ≠ ':' ∧ c ≠ '\n')
  ∧ (∀ c, k.head? = some c → wsChar c = false ∧ c ≠ '-')
  ∧ (∀ c, k.getLast? = some c → wsChar c = false)

/-- A string value that survives quoting then quote-stripping: no newline,
no leading or trailing quote characters. -/
def wfStr (v : PyStr) : Prop :=
  '\n' ∉ v
  ∧ v.head? ≠ some '"' ∧ v.getLast? ≠ some '"'
  ∧ v.head? ≠ some '\'' ∧ v.getLast? ≠ some '\''

/-- A list item that survives the comma-separated quoted-item codec:
additionally nonempty and comma-free. -/
def wfItem (i : PyStr) : Prop :=
  i ≠ [] ∧ ',' ∉ i ∧ '\n' ∉ i
  ∧ i.head? ≠ some '"' ∧ i.getLast? ≠ some '"'
  ∧ i.head? ≠ some '\'' ∧ i.getLast? ≠ some '\''

/-- Well-formedness of a value. -/
def wfVal : FVal → Prop
  | .s v => wfStr v
  | .b _ => True
  | .l items => ∀ i ∈ items, wfItem i

/-- Well-formedness of a field. -/
def wfField (p : PyStr × FVal) : Prop := wfKey p.1 ∧ wfVal p.2

/-- Well-formedness of a mapping: well-formed fields with distinct keys. -/
def wfFMap (d : FMap) : Prop :=
  (∀ p ∈ d, wfField p) ∧ (d.map Prod.fst).Nodup

/-- A header line the frontmatter regex treats atomically: nonempty, no
newline, and not starting with whitespace or a hyphen. -/
def goodLine (l : PyStr) : Prop :=
  l ≠ [] ∧ '\n' ∉ l
  ∧ (∀ c, l.head? = some c → wsChar c = false ∧ c ≠ '-')

instance (k : PyStr) : Decidable (wfKey k) := by unfold wfKey; infer_instance
instance (v : PyStr) : Decidable (wfStr v) := by unfold wfStr; infer_instance
instance (i : PyStr) : Decidable (wfItem i) := by unfold wfItem; infer_instance
instance (v : FVal) : Decidable (wfVal v) := by
  unfold wfVal; cases v <;> infer_instance
instance (p : PyStr × FVal) : Decidable (wfField p) := by
  unfold wfField; infer_instance
instance (d : FMap) : Decidable (wfFMap d) := by unfold wfFMap; infer_instance
instance (l : PyStr) : Decidable (goodLine l) := by
  unfold goodLine; infer_instance

/-! ## Acquisition-tier content checks (src/metis/fetchers/__init__.py)

The network call of each tier is abstracted: `scraped` is the markdown the
hosted extraction service produced (`none` for any failure), and for the
readability proxy, `status_code`/`text` are the HTTP response.  The
embedding returns the accepted markdown; the title and platform fields of
the resulting `FetchedContent` play no part in the rejection logic. -/

/-- `FirecrawlFetcher.fetch`: short-circuits when no API credential is
configured; rejects the WeChat verification markers (`环境异常` anywhere,
`完成验证` within the first 500 characters) and content not longer than
100 characters. -/
def firecrawlFetchResult (api_key_configured : Bool)
    (scraped : Option PyStr) : Option PyStr :=
  if !api_key_configured then none
  else match scraped with
    | none => none
    | some markdown =>
      if markdown = [] then none
      else if containsSub markdown (pystr "环境异常")
          || containsSub (markdown.take 500) (pystr "完成验证") then none
      else if markdown.length > 100 then some markdown
      else none

/-- `JinaFetcher.fetch`: requires HTTP 200 and more than 100 characters,
then rejects the WeChat verification markers. -/
def jinaFetchResult (status_code : Nat) (text : PyStr) : Option PyStr :=
  if status_code = 200 ∧ text.length > 100 then
    if containsSub text (pystr "环境异常")
        || containsSub (text.take 500) (pystr "完成验证") then none
    else some text
  else none

/-! ## Filename sanitization (src/metis/storage/__init__.py) -/

/-- Characters removed by `re.sub(r'[<>:"/\\|?*]', "", name)`. -/
def isFsUnsafe (c : Char) : Bool :=
  c = '<' || c = '>' || c = ':' || c = '"' || c = '/' || c = '\\'
  || c = '|' || c = '?' || c = '*'

/-- Characters kept by `re.sub(r'[^\w一-鿿\-_]', "", name)`.
Python's Unicode `\w` is modelled on the ASCII and CJK ranges the
repository's titles use (ASCII alphanumerics, underscore, CJK
ideographs), plus the explicitly retained hyphen. -/
def isKeptFilenameChar (c : Char) : Bool :=
  c.isAlphanum || c = '_' || ('一' ≤ c && c ≤ '鿿') || c = '-'

/-- `_sanitize_filename(name)`. -/
def _sanitize_filename (name : PyStr) : PyStr :=
  let name :=
    match splitFirst ':' name with
    | some (_, after) => if pyStrip after ≠ [] then pyStrip after else name
    | none => name
  let name := name.filter (fun c => !(isFsUnsafe c))
  let name := name.map (fun c => if c = ' ' then '-' else c)
  let name := name.filter isKeptFilenameChar
  if name.take 80 = [] then pystr "untitled" else name.take 80

/-- Python `s.replace(old, new)`: all non-overlapping occurrences are
replaced left to right.  (For the degenerate empty pattern, which no
caller in this repository uses, the text is returned unchanged.) -/
def pyReplace (pat rep : PyStr) : PyStr → PyStr
  | [] => []
  | c :: rest =>
    if h : pat ≠ [] ∧ pat.isPrefixOf (c :: rest) then
      rep ++ pyReplace pat rep ((c :: rest).drop pat.length)
    else c :: pyReplace pat rep rest
termination_by l => l.length
decreasing_by
  · simp only [List.length_drop, List.length_cons]
    cases pat with
    | nil => exact absurd rfl h.1
    | cons p ps => simp; omega
  · simp

/-- `format_frontmatter(title, url, platform, created, status, tags)`; the
`created.isoformat()` timestamp is an opaque string argument. -/
def format_frontmatter (title url platform created status : PyStr)
    (tags : List PyStr) : PyStr :=
  let tags_str := joinStr (pystr ", ") (tags.map quoteItem)
  let escaped_title := pyReplace (pystr "\"") (pystr "\\\"") title
  pystr "---\ntitle: \"" ++ escaped_title ++ pystr "\"\nurl: \"" ++ url
    ++ pystr "\"\nplatform: \"" ++ platform ++ pystr "\"\ncreated: "
    ++ created ++ pystr "\nstatus: \"" ++ status ++ pystr "\"\ntags: ["
    ++ tags_str ++ pystr "]\n---\n\n"

/-- The collection folder: named documents in scan (glob) order. -/
abbrev FileSys := List (PyStr × PyStr)

/-- The scan of `get_content_path`: the first document whose raw text
contains the URL verbatim, together with its content. -/
def findContentFile (fs : FileSys) (url : PyStr) : Option (PyStr × PyStr) :=
  match fs with
  | [] => none
  | f :: rest =>
    if containsSub f.2 url then some f else findContentFile rest url

/-- `Path.write_text`: replace the named file's content, or create it. -/
def fsWrite (fs : FileSys) (name content : PyStr) : FileSys :=
  if fs.any (fun f => f.1 = name) then
    fs.map (fun f => if f.1 = name then (name, content) else f)
  else fs ++ [(name, content)]

/-- The number of documents whose text contains the URL. -/
def countContaining (fs : FileSys) (url : PyStr) : Nat :=
  (fs.filter (fun f => containsSub f.2 url)).length

/-- The line scan of `_update_frontmatter_status` after the opening `---`
line: collect lines up to and including the first closing `---` line,
returning them with the remaining (body) lines; `none` when no closing
line exists (`body_start` stays `0` and the update is abandoned). -/
def scanClose : List PyStr → Option (List PyStr × List PyStr)
  | [] => none
  | l :: rest =>
    if l = pystr "---" then some ([l], rest)
    else (scanClose rest).map (fun p => (l :: p.1, p.2))

/-- The frontmatter line scan of `_update_frontmatter_status`: the first
line must be exactly `---`, then the closing scan runs. -/
def scanFrontmatter (lines : List PyStr) : Option (List PyStr × List PyStr) :=
  match lines with
  | [] => none
  | l0 :: rest =>
    if l0 = pystr "---" then
      (scanClose rest).map (fun p => (l0 :: p.1, p.2))
    else none

/-- The per-line rewrite of `_update_frontmatter_status`: lines starting
with `status:` become `status: "<status>"`. -/
def statusLineRewrite (status line : PyStr) : PyStr :=
  if (pystr "status:").isPrefixOf line then
    pystr "status: \"" ++ status ++ ['"']
  else line

/-- `_update_frontmatter_status` on the file's text: rewrites the `status:`
frontmatter lines and preserves the body lines; returns the text unchanged
(no write) when the header is absent or unterminated. -/
def _update_frontmatter_status (content : PyStr) (status : PyStr) : PyStr :=
  if ¬ (pystr "---").isPrefixOf content then content
  else
    match scanFrontmatter (splitOnChar '\n' content) with
    | none => content
    | some (fm, bodyLines) =>
      joinChar '\n' (fm.map (statusLineRewrite status))
        ++ '\n' :: joinChar '\n' bodyLines

/-- `ProcessedContent` dataclass (src/metis/processors/__init__.py). -/
structure ProcessedContent where
  title : PyStr
  markdown : PyStr
  images : List PyStr
  url : PyStr
  platform_name : PyStr
  summary : PyStr := []
deriving DecidableEq, Repr

/-- `save_to_obsidian(content, status)` on the collection state: an upsert
keyed by the URL.  `datetime.now().isoformat()` is the argument `now`;
the returned pair is the document's path and the new collection state. -/
def save_to_obsidian (now : PyStr) (content : ProcessedContent)
    (status : PyStr) (fs : FileSys) : PyStr × FileSys :=
  match findContentFile fs content.url with
  | some (name, old) =>
    (name, fsWrite fs name (_update_frontmatter_status old status))
  | none =>
    let safe_title := _sanitize_filename content.title
    let filename := safe_title.take 50 ++ pystr ".md"
    let frontmatter := format_frontmatter content.title content.url
      content.platform_name now status [content.platform_name, pystr "metis"]
    (filename, fsWrite fs filename (frontmatter ++ content.markdown))

/-! ## Media localization (src/metis/processors/__init__.py)

`download_image` performs an HTTP GET; the embedding takes the network as
an oracle `fetchBytes : PyStr → Option (List Nat)` giving the response
body bytes per URL (`none` for a non-200 status or a raised exception).
`hashlib.md5(url.encode()).hexdigest()` is the oracle
`md5hex : PyStr → PyStr`. -/

/-- `_guess_extension(url, content)` over the response bytes.  The source
compares the 4-byte slice `content[:4]` with the 3-byte JPEG literal and
the 8-byte slice `content[:8]` with the 6-byte GIF literals, exactly as
written. -/
def _guess_extension (url : PyStr) (content : List Nat) : PyStr :=
  if content.take 4 = [0xff, 0xd8, 0xff] then pystr ".jpg"
  else if content.take 4 = [0x89, 0x50, 0x4e, 0x47] then pystr ".png"
  else if content.take 8 = [0x47, 0x49, 0x46, 0x38, 0x39, 0x61]
      || content.take 8 = [0x47, 0x49, 0x46, 0x38, 0x37, 0x61] then
    pystr ".gif"
  else if content.take 4 = [0x52, 0x49, 0x46, 0x46]
      && ((content.drop 8).take 4) = [0x57, 0x45, 0x42, 0x50] then
    pystr ".webp"
  else
    let url_lower := url.map Char.toLower
    if containsSub url_lower (pystr ".jpg")
        || containsSub url_lower (pystr ".jpeg") then pystr ".jpg"
    else if containsSub url_lower (pystr ".png") then pystr ".png"
    else if containsSub url_lower (pystr ".gif") then pystr ".gif"
    else if containsSub url_lower (pystr ".webp") then pystr ".webp"
    else pystr ".jpg"

/-- `download_image(url, media_folder, platform_name)`: on a successful
GET, writes `img_<md5(url)[:12]><ext>` under the media folder and returns
that path; the caller only uses the path relative to the media folder, so
the embedding returns the filename. -/
def download_image (md5hex : PyStr → PyStr)
    (fetchBytes : PyStr → Option (List Nat)) (url : PyStr) : Option PyStr :=
  match fetchBytes url with
  | none => none
  | some content =>
    let ext := _guess_extension url content
    let url_hash := (md5hex url).take 12
    some (pystr "img_" ++ url_hash ++ ext)

/-- The `re.match(pattern, line.strip())` test of `_clean_metadata`
against the seven metadata patterns (each anchored, so a startswith test
on the stripped line). -/
def skipLine (line : PyStr) : Bool :=
  (pystr "来源：").isPrefixOf (pyStrip line)
    || (pystr "作者：").isPrefixOf (pyStrip line)
    || (pystr "发布时间：").isPrefixOf (pyStrip line)
    || (pystr "阅读：").isPrefixOf (pyStrip line)
    || (pystr "点赞：").isPrefixOf (pyStrip line)
    || (pystr "收藏：").isPrefixOf (pyStrip line)
    || (pystr "分享：").isPrefixOf (pyStrip line)

/-- `_clean_metadata(markdown)`: drop the metadata lines, re-join. -/
def _clean_metadata (markdown : PyStr) : PyStr :=
  joinChar '\n' ((splitOnChar '\n' markdown).filter (fun l => !skipLine l))

/-- `process_content(url, raw_markdown, title)`: extract the image URLs,
download each `http(s)` one (the insertion-ordered dict
`downloaded_images` is the association list `downloaded`), rewrite every
occurrence of each original URL to its local relative path, clean the
metadata lines. -/
def process_content (md5hex : PyStr → PyStr)
    (fetchBytes : PyStr → Option (List Nat))
    (url raw_markdown title : PyStr) : ProcessedContent :=
  let platform := detect_platform url
  let image_urls := extract_image_urls raw_markdown
  let downloaded := image_urls.foldl (fun acc img_url =>
    if (pystr "http").isPrefixOf img_url then
      match download_image md5hex fetchBytes img_url with
      | some rel => acc ++ [(img_url, rel)]
      | none => acc
    else acc) []
  let markdown := downloaded.foldl (fun md p => pyReplace p.1 p.2 md) raw_markdown
  { title := title
    markdown := _clean_metadata markdown
    images := downloaded.map Prod.snd
    url := url
    platform_name := platform.name }

end Metis

namespace Metis

/-! ## Lemmas about the substring search and the frontmatter regex -/

/-- The closing marker as an explicit character list. -/
def nlpat : PyStr := ['\n', '-', '-', '-']

theorem nlpat_eq : pystr "\n---" = nlpat := rfl

theorem isPrefixOf_iff_exists (pat l : PyStr) :
    pat.isPrefixOf l = true ↔ ∃ t, l = pat ++ t := by
  induction pat generalizing l with
  | nil =>
    simp [List.isPrefixOf]
  | cons c cs ih =>
    cases l with
    | nil =>
      simp [List.isPrefixOf]
    | cons d ds =>
      simp only [List.isPrefixOf, Bool.and_eq_true, beq_iff_eq, ih,
        List.cons_append]
      constructor
      · rintro ⟨rfl, t, rfl⟩
        exact ⟨t, rfl⟩
      · rintro ⟨t, ht⟩
        injection ht with h1 h2
        exact ⟨h1.symm, t, h2⟩

theorem isPrefixOf_self_append (pat t : PyStr) :
    pat.isPrefixOf (pat ++ t) = true :=
  (isPrefixOf_iff_exists pat (pat ++ t)).2 ⟨t, rfl⟩

theorem isPrefixOf_false_of_head (c d : Char) (cs ls : PyStr) (h : c ≠ d) :
    (c :: cs).isPrefixOf (d :: ls) = false := by
  simp [List.isPrefixOf, h]

theorem isPrefixOf_cons_same (c : Char) (cs ls : PyStr) :
    (c :: cs).isPrefixOf (c :: ls) = cs.isPrefixOf ls := by
  simp [List.isPrefixOf]

theorem subIdx_self_append (pat t : PyStr) : subIdx pat (pat ++ t) = some 0 := by
  cases pat with
  | nil =>
    cases t with
    | nil => simp [subIdx]
    | cons c cs => simp [subIdx, List.isPrefixOf]
  | cons c cs =>
    show subIdx (c :: cs) (c :: (cs ++ t)) = some 0
    rw [subIdx, ← List.cons_append, if_pos (isPrefixOf_self_append (c :: cs) t)]

/-- Advancing the closing-marker search through newline-free text. -/
theorem subIdx_nl_clean (l : PyStr) (hl : '\n' ∉ l) (Y : PyStr) (n : Nat)
    (hY : subIdx nlpat Y = some n) :
    subIdx nlpat (l ++ Y) = some (l.length + n) := by
  induction l with
  | nil => simpa using hY
  | cons c cs ih =>
    have hc : '\n' ≠ c := by
      intro h
      exact hl (h ▸ List.mem_cons_self c cs)
    have hcs : '\n' ∉ cs := fun h => hl (List.mem_cons_of_mem c h)
    show subIdx nlpat (c :: (cs ++ Y)) = some ((c :: cs).length + n)
    rw [subIdx]
    rw [show nlpat = '\n' :: ['-', '-', '-'] from rfl,
      isPrefixOf_false_of_head '\n' c _ _ hc, if_neg (by simp)]
    rw [show ('\n' :: ['-', '-', '-'] : PyStr) = nlpat from rfl, ih hcs]
    simp
    omega

/-- The marker pattern against a text starting with a newline: only the
remaining `---` is still required. -/
theorem nlpat_isPrefixOf_cons (X : PyStr) :
    nlpat.isPrefixOf ('\n' :: X) = (['-', '-', '-'] : PyStr).isPrefixOf X := by
  simp [nlpat, List.isPrefixOf]

/-- The joined block of a nonempty list of good lines starts with the first
character of its first line. -/
theorem joinChar_cons_head (l : PyStr) (rest : List PyStr) (c : Char)
    (cs : PyStr) (hl : l = c :: cs) :
    ∃ Z, joinChar '\n' (l :: rest) = c :: Z := by
  cases rest with
  | nil => exact ⟨cs, by rw [joinChar, hl]⟩
  | cons a b =>
    refine ⟨cs ++ '\n' :: joinChar '\n' (a :: b), ?_⟩
    rw [joinChar, hl]
    rfl

/-- The closing-marker search over a joined block of good lines followed by
the closing marker finds exactly the block's end. -/
theorem subIdx_join_close (lines : List PyStr) (body : PyStr)
    (hg : ∀ l ∈ lines, goodLine l) (hne : lines ≠ []) :
    subIdx nlpat (joinChar '\n' lines ++ (nlpat ++ body))
      = some (joinChar '\n' lines).length := by
  induction lines with
  | nil => exact absurd rfl hne
  | cons l rest ih =>
    have hgl : goodLine l := hg l (List.mem_cons_self l rest)
    cases rest with
    | nil =>
      show subIdx nlpat (l ++ (nlpat ++ body)) = some l.length
      have h0 := subIdx_self_append nlpat body
      have := subIdx_nl_clean l hgl.2.1 (nlpat ++ body) 0 h0
      simpa using this
    | cons l2 rs =>
      have hg2 : ∀ x ∈ l2 :: rs, goodLine x :=
        fun x hx => hg x (List.mem_cons_of_mem l hx)
      have hl2 : goodLine l2 := hg2 l2 (List.mem_cons_self l2 rs)
      have hL' := ih hg2 (List.cons_ne_nil l2 rs)
      obtain ⟨x, xs, hcl2⟩ : ∃ x xs, l2 = x :: xs := by
        cases l2 with
        | nil => exact absurd rfl hl2.1
        | cons a b => exact ⟨a, b, rfl⟩
      obtain ⟨Z, hZ⟩ := joinChar_cons_head l2 rs x xs hcl2
      have hxd : x ≠ '-' := (hl2.2.2 x (by rw [hcl2]; rfl)).2
      have hstep : subIdx nlpat
          ('\n' :: (joinChar '\n' (l2 :: rs) ++ (nlpat ++ body)))
          = some ((joinChar '\n' (l2 :: rs)).length + 1) := by
        rw [subIdx]
        have hnp : nlpat.isPrefixOf
            ('\n' :: (joinChar '\n' (l2 :: rs) ++ (nlpat ++ body))) = false := by
          rw [nlpat_isPrefixOf_cons, hZ, List.cons_append]
          exact isPrefixOf_false_of_head '-' x _ _ (fun h => hxd h.symm)
        rw [hnp, if_neg (by simp), hL']
        rfl
      show subIdx nlpat
          ((l ++ '\n' :: joinChar '\n' (l2 :: rs)) ++ (nlpat ++ body))
        = some (l ++ '\n' :: joinChar '\n' (l2 :: rs)).length
      rw [List.append_assoc, List.cons_append]
      rw [subIdx_nl_clean l hgl.2.1 _ _ hstep]
      simp

/-- The frontmatter regex on a canonical header block: the group is the
joined line block and the match ends just past the closing `---`. -/
theorem fmMatch_canonical (lines : List PyStr) (body : PyStr)
    (hg : ∀ l ∈ lines, goodLine l) (hne : lines ≠ []) :
    fmMatch (pystr "---\n" ++ (joinChar '\n' lines ++ (nlpat ++ body)))
      = some (joinChar '\n' lines, (joinChar '\n' lines).length + 8) := by
  obtain ⟨l1, rest1, hl1⟩ : ∃ l1 rest1, lines = l1 :: rest1 := by
    cases lines with
    | nil => exact absurd rfl hne
    | cons a b => exact ⟨a, b, rfl⟩
  have hgl1 : goodLine l1 := hg l1 (by rw [hl1]; exact List.mem_cons_self _ _)
  obtain ⟨c1, cs1, hc1⟩ : ∃ c1 cs1, l1 = c1 :: cs1 := by
    cases l1 with
    | nil => exact absurd rfl hgl1.1
    | cons a b => exact ⟨a, b, rfl⟩
  obtain ⟨Ltail, hLt⟩ : ∃ Z, joinChar '\n' lines = c1 :: Z := by
    rw [hl1]
    exact joinChar_cons_head l1 rest1 c1 cs1 hc1
  have hc1w : wsChar c1 = false ∧ c1 ≠ '-' :=
    hgl1.2.2 c1 (by rw [hc1]; rfl)
  have htw : ('\n' :: (joinChar '\n' lines ++ (nlpat ++ body))).takeWhile wsChar
      = ['\n'] := by
    rw [List.takeWhile_cons_of_pos (by decide), hLt, List.cons_append,
      List.takeWhile_cons_of_neg (by simp [hc1w.1])]
  have hclose : fmFindClose ('\n' :: (joinChar '\n' lines ++ (nlpat ++ body))) 1
      = some ((joinChar '\n' lines).length + 1) := by
    show (subIdx (pystr "\n---")
        (('\n' :: (joinChar '\n' lines ++ (nlpat ++ body))).drop 1)).map (· + 1)
      = some ((joinChar '\n' lines).length + 1)
    rw [show ('\n' :: (joinChar '\n' lines ++ (nlpat ++ body))).drop 1
        = joinChar '\n' lines ++ (nlpat ++ body) from rfl]
    rw [nlpat_eq, subIdx_join_close lines body hg hne]
    rfl
  have htry : fmTryFrom ('\n' :: (joinChar '\n' lines ++ (nlpat ++ body))) 1
      = some (1, (joinChar '\n' lines).length + 1) := by
    rw [show fmTryFrom ('\n' :: (joinChar '\n' lines ++ (nlpat ++ body))) 1
        = (match fmFindClose
            ('\n' :: (joinChar '\n' lines ++ (nlpat ++ body))) 1 with
          | some p => some (1, p)
          | none => fmTryFrom
              ('\n' :: (joinChar '\n' lines ++ (nlpat ++ body))) 0)
        from rfl]
    rw [hclose]
  have hmain : fmMatch (pystr "---\n" ++ (joinChar '\n' lines ++ (nlpat ++ body)))
      = (match fmTryFrom ('\n' :: (joinChar '\n' lines ++ (nlpat ++ body)))
          ((('\n' :: (joinChar '\n' lines ++ (nlpat ++ body))).takeWhile
            wsChar).length) with
        | some (s, p) =>
          some (((('\n' :: (joinChar '\n' lines ++ (nlpat ++ body))).drop
            s).take (p - s), 3 + p + 4))
        | none => none) := rfl
  rw [hmain, htw]
  show (match fmTryFrom ('\n' :: (joinChar '\n' lines ++ (nlpat ++ body))) 1 with
    | some (s, p) =>
      some (((('\n' :: (joinChar '\n' lines ++ (nlpat ++ body))).drop s).take
        (p - s), 3 + p + 4))
    | none => none)
    = some (joinChar '\n' lines, (joinChar '\n' lines).length + 8)
  rw [htry]
  show some ((( joinChar '\n' lines ++ (nlpat ++ body)).take
      ((joinChar '\n' lines).length + 1 - 1)),
      3 + ((joinChar '\n' lines).length + 1) + 4)
    = some (joinChar '\n' lines, (joinChar '\n' lines).length + 8)
  rw [show (joinChar '\n' lines).length + 1 - 1
    = (joinChar '\n' lines).length from rfl]
  rw [List.take_left]
  have h8 : 3 + ((joinChar '\n' lines).length + 1) + 4
      = (joinChar '\n' lines).length + 8 := by omega
  rw [h8]

/-- The text after the canonical header block is exactly `body`. -/
theorem drop_canonical (L body : PyStr) :
    (pystr "---\n" ++ (L ++ (nlpat ++ body))).drop (L.length + 8) = body := by
  have : pystr "---\n" ++ (L ++ (nlpat ++ body))
      = (pystr "---\n" ++ L ++ nlpat) ++ body := by simp
  rw [this]
  have hlen : (pystr "---\n" ++ L ++ nlpat).length = L.length + 8 := by
    simp [nlpat, pystr]
  rw [← hlen, List.drop_left]

/-! ## Lemmas about the ordered-dictionary operations -/

theorem fmLookup_none_of_not_mem (u : FMap) (k : PyStr)
    (h : k ∉ u.map Prod.fst) : fmLookup u k = none := by
  induction u with
  | nil => rfl
  | cons p ps ih =>
    simp only [fmLookup]
    rw [if_neg (fun he => h (by
      rw [List.map_cons, ← he]
      exact List.mem_cons_self _ _))]
    exact ih (fun hm => h (by rw [List.map_cons]; exact List.mem_cons_of_mem _ hm))

theorem fmLookup_cons (p : PyStr × FVal) (ps : FMap) (k : PyStr) :
    fmLookup (p :: ps) k = if p.1 = k then some p.2 else fmLookup ps k := rfl

theorem fmLookup_map_overwrite_same (ps : FMap) (k : PyStr) (v : FVal)
    (hany : ps.any (fun p => p.1 = k) = true) :
    fmLookup (ps.map (fun p => if p.1 = k then (k, v) else p)) k = some v := by
  induction ps with
  | nil => simp at hany
  | cons q qs ih =>
    by_cases hqk : q.1 = k
    · simp [List.map_cons, hqk, fmLookup_cons]
    · have hqs : qs.any (fun p => p.1 = k) = true := by
        rw [List.any_cons] at hany
        rcases Bool.or_eq_true_iff.1 hany with h | h
        · exact absurd (by simpa using h) hqk
        · exact h
      simp [List.map_cons, hqk, fmLookup_cons, ih hqs]

theorem fmLookup_map_overwrite_other (ps : FMap) (k k2 : PyStr) (v : FVal)
    (hne : k2 ≠ k) :
    fmLookup (ps.map (fun p => if p.1 = k then (k, v) else p)) k2
      = fmLookup ps k2 := by
  induction ps with
  | nil => rfl
  | cons q qs ih =>
    by_cases hqk : q.1 = k
    · have h1 : ¬ (k = k2) := fun h => hne h.symm
      have h2 : ¬ (q.1 = k2) := fun h => hne ((hqk ▸ h).symm)
      simp [List.map_cons, hqk, fmLookup_cons, h1, h2, ih]
    · by_cases hq2 : q.1 = k2 <;>
        simp [List.map_cons, hqk, hq2, fmLookup_cons, ih, hne]

theorem fmLookup_append_one_same (d : FMap) (k : PyStr) (v : FVal)
    (h : d.any (fun p => p.1 = k) = false) :
    fmLookup (d ++ [(k, v)]) k = some v := by
  induction d with
  | nil => simp [fmLookup_cons]
  | cons p ps ih =>
    rw [List.any_cons] at h
    have hpk : ¬ (p.1 = k) := by
      intro he
      simp [he] at h
    have hps : ps.any (fun p => p.1 = k) = false :=
      (Bool.or_eq_false_iff.1 h).2
    simp [List.cons_append, fmLookup_cons, hpk, ih hps]

theorem fmLookup_append_one_other (d : FMap) (k k2 : PyStr) (v : FVal)
    (hne : k2 ≠ k) :
    fmLookup (d ++ [(k, v)]) k2 = fmLookup d k2 := by
  induction d with
  | nil =>
    have h1 : ¬ (k = k2) := fun h => hne h.symm
    simp [fmLookup_cons, h1, fmLookup]
  | cons p ps ih =>
    by_cases hq2 : p.1 = k2 <;>
      simp [List.cons_append, fmLookup_cons, hq2, ih]

theorem fmLookup_dictInsert_same (d : FMap) (k : PyStr) (v : FVal) :
    fmLookup (dictInsert d k v) k = some v := by
  unfold dictInsert
  by_cases hany : d.any (fun p => p.1 = k) = true
  · rw [if_pos hany]
    exact fmLookup_map_overwrite_same d k v hany
  · rw [if_neg hany]
    exact fmLookup_append_one_same d k v (Bool.not_eq_true _ ▸ hany)

theorem fmLookup_dictInsert_other (d : FMap) (k k2 : PyStr) (v : FVal)
    (hne : k2 ≠ k) : fmLookup (dictInsert d k v) k2 = fmLookup d k2 := by
  unfold dictInsert
  by_cases hany : d.any (fun p => p.1 = k) = true
  · rw [if_pos hany]
    exact fmLookup_map_overwrite_other d k k2 v hne
  · rw [if_neg hany]
    exact fmLookup_append_one_other d k k2 v hne

theorem dictUpdate_cons (d : FMap) (p : PyStr × FVal) (ps : FMap) :
    dictUpdate d (p :: ps) = dictUpdate (dictInsert d p.1 p.2) ps := rfl

/-- Union semantics of `dict.update`: keys of `u` take `u`'s values, other
keys keep `d`'s values. -/
theorem fmLookup_dictUpdate (u : FMap) (hu : (u.map Prod.fst).Nodup)
    (d : FMap) :
    (∀ k v, fmLookup u k = some v → fmLookup (dictUpdate d u) k = some v)
    ∧ (∀ k, fmLookup u k = none →
        fmLookup (dictUpdate d u) k = fmLookup d k) := by
  induction u generalizing d with
  | nil =>
    refine ⟨fun k v h => by simp [fmLookup] at h, fun k _ => rfl⟩
  | cons p ps ih =>
    rw [List.map_cons, List.nodup_cons] at hu
    obtain ⟨hp, hps⟩ := hu
    constructor
    · intro k v h
      simp only [fmLookup] at h
      by_cases hpk : p.1 = k
      · rw [if_pos hpk] at h
        injection h with h
        subst hpk
        rw [dictUpdate_cons]
        have hknot : fmLookup ps p.1 = none :=
          fmLookup_none_of_not_mem ps p.1 hp
        rw [(ih hps (dictInsert d p.1 p.2)).2 p.1 hknot,
          fmLookup_dictInsert_same d p.1 p.2, h]
      · rw [if_neg hpk] at h
        rw [dictUpdate_cons]
        exact (ih hps (dictInsert d p.1 p.2)).1 k v h
    · intro k h
      simp only [fmLookup] at h
      by_cases hpk : p.1 = k
      · rw [if_pos hpk] at h
        exact absurd h (by simp)
      · rw [if_neg hpk] at h
        rw [dictUpdate_cons, (ih hps (dictInsert d p.1 p.2)).2 k h,
          fmLookup_dictInsert_other d p.1 k p.2 (fun he => hpk he.symm)]

/-! ## Lemmas about stripping, splitting and joining -/

theorem dropWhile_eq_self_of_head (p : Char → Bool) (l : PyStr)
    (h : ∀ c, l.head? = some c → p c = false) : l.dropWhile p = l := by
  cases l with
  | nil => rfl
  | cons c cs => exact List.dropWhile_cons_of_neg (by simp [h c rfl])

theorem stripBoth_eq_self (p : Char → Bool) (l : PyStr)
    (hh : ∀ c, l.head? = some c → p c = false)
    (hl : ∀ c, l.getLast? = some c → p c = false) : stripBoth p l = l := by
  unfold stripBoth
  rw [dropWhile_eq_self_of_head p l hh,
    dropWhile_eq_self_of_head p l.reverse
      (fun c hc => hl c ((List.head?_reverse l) ▸ hc)),
    List.reverse_reverse]

theorem pyStrip_space_cons (x : PyStr)
    (hh : ∀ c, x.head? = some c → wsChar c = false)
    (hl : ∀ c, x.getLast? = some c → wsChar c = false) :
    pyStrip (' ' :: x) = x := by
  unfold pyStrip stripBoth
  rw [List.dropWhile_cons_of_pos (by decide),
    dropWhile_eq_self_of_head wsChar x hh,
    dropWhile_eq_self_of_head wsChar x.reverse
      (fun c hc => hl c ((List.head?_reverse x) ▸ hc)),
    List.reverse_reverse]

theorem pyStripChar_quotes (q : Char) (v : PyStr)
    (hh : v.head? ≠ some q) (hl : v.getLast? ≠ some q) :
    pyStripChar q (q :: (v ++ [q])) = v := by
  unfold pyStripChar stripBoth
  rw [List.dropWhile_cons_of_pos (by simp)]
  cases v with
  | nil => simp
  | cons c cs =>
    have hcq : ¬ (c = q) := by
      intro h
      exact hh (by rw [List.head?_cons, h])
    rw [List.cons_append, List.dropWhile_cons_of_neg (by simp [hcq])]
    have hrev : (c :: (cs ++ [q])).reverse = q :: (cs.reverse ++ [c]) := by
      simp
    rw [hrev, List.dropWhile_cons_of_pos (by simp)]
    have hafter : (cs.reverse ++ [c]).dropWhile (fun x => x = q)
        = cs.reverse ++ [c] := by
      refine dropWhile_eq_self_of_head _ _ ?_
      intro d hd
      cases hcs : cs.reverse with
      | nil =>
        rw [hcs, List.nil_append, List.head?_cons] at hd
        injection hd with hd
        simp only [decide_eq_false_iff_not]
        intro hq
        exact hcq (hd.symm ▸ hq)
      | cons e es =>
        rw [hcs, List.cons_append, List.head?_cons] at hd
        injection hd with hd
        have hlast : (c :: cs).getLast? = some e := by
          rw [← List.head?_reverse, List.reverse_cons, hcs]
          rfl
        simp only [decide_eq_false_iff_not]
        intro hq
        exact hl (by rw [hlast, hd, hq])
    rw [hafter]
    simp

theorem splitFirst_at (k : PyStr) (hk : ':' ∉ k) (rest : PyStr) :
    splitFirst ':' (k ++ ':' :: rest) = some (k, rest) := by
  induction k with
  | nil => simp [splitFirst]
  | cons c cs ih =>
    have hc : (c = ':') = False := by
      simp only [eq_iff_iff, iff_false]
      intro h
      exact hk (h ▸ List.mem_cons_self c cs)
    rw [List.cons_append, splitFirst, if_neg (by simp [hc])]
    rw [ih (fun h => hk (List.mem_cons_of_mem c h))]
    rfl

theorem splitOnChar_no_sep (sep : Char) (l : PyStr) (h : sep ∉ l) :
    splitOnChar sep l = [l] := by
  induction l with
  | nil => rfl
  | cons c cs ih =>
    have hc : (c = sep) = False := by
      simp only [eq_iff_iff, iff_false]
      intro he
      exact h (he ▸ List.mem_cons_self c cs)
    rw [splitOnChar]
    simp only [hc, if_false]
    rw [ih (fun hm => h (List.mem_cons_of_mem c hm))]

theorem splitOnChar_append_sep (sep : Char) (l : PyStr) (h : sep ∉ l)
    (t : PyStr) :
    splitOnChar sep (l ++ sep :: t) = l :: splitOnChar sep t := by
  induction l with
  | nil =>
    rw [List.nil_append, splitOnChar]
    simp
  | cons c cs ih =>
    have hc : (c = sep) = False := by
      simp only [eq_iff_iff, iff_false]
      intro he
      exact h (he ▸ List.mem_cons_self c cs)
    rw [List.cons_append, splitOnChar]
    simp only [hc, if_false]
    rw [ih (fun hm => h (List.mem_cons_of_mem c hm))]

theorem splitOnChar_joinChar (sep : Char) (lines : List PyStr)
    (hne : lines ≠ []) (h : ∀ l ∈ lines, sep ∉ l) :
    splitOnChar sep (joinChar sep lines) = lines := by
  induction lines with
  | nil => exact absurd rfl hne
  | cons l rest ih =>
    cases rest with
    | nil =>
      rw [joinChar]
      exact splitOnChar_no_sep sep l (h l (List.mem_cons_self l []))
    | cons l2 rs =>
      rw [joinChar, splitOnChar_append_sep sep l
        (h l (List.mem_cons_self _ _)) _]
      rw [ih (List.cons_ne_nil l2 rs)
        (fun x hx => h x (List.mem_cons_of_mem l hx))]

theorem joinChar_append_last (sep : Char) (lines : List PyStr)
    (hne : lines ≠ []) (b : PyStr) :
    joinChar sep (lines ++ [b]) = joinChar sep lines ++ sep :: b := by
  induction lines with
  | nil => exact absurd rfl hne
  | cons l rest ih =>
    cases rest with
    | nil => rw [joinChar]; rfl
    | cons l2 rs =>
      rw [show (l :: l2 :: rs) ++ [b] = l :: ((l2 :: rs) ++ [b]) from rfl]
      rw [show (l2 :: rs) ++ [b] = l2 :: (rs ++ [b]) from rfl]
      rw [joinChar, show l2 :: (rs ++ [b]) = (l2 :: rs) ++ [b] from rfl]
      rw [ih (List.cons_ne_nil l2 rs), joinChar]
      simp

/-- The serialized header block in the canonical shape consumed by
`fmMatch_canonical` (with an empty trailing body). -/
theorem serializeFM_shape (fields : FMap) (hne : fields ≠ []) :
    serializeFM fields
      = pystr "---\n"
        ++ (joinChar '\n' (fields.map renderFMLine) ++ (nlpat ++ [])) := by
  unfold serializeFM
  have hmapne : fields.map renderFMLine ≠ [] := by
    intro h
    exact hne (List.map_eq_nil_iff.1 h)
  obtain ⟨x, xs, hx⟩ : ∃ x xs, fields.map renderFMLine = x :: xs := by
    cases hc : fields.map renderFMLine with
    | nil => exact absurd hc hmapne
    | cons a b => exact ⟨a, b, rfl⟩
  rw [show [pystr "---"] ++ fields.map renderFMLine ++ [pystr "---"]
    = pystr "---" :: (fields.map renderFMLine ++ [pystr "---"]) from by simp]
  rw [hx, List.cons_append, joinChar,
    show x :: (xs ++ [pystr "---"]) = (x :: xs) ++ [pystr "---"] from rfl,
    joinChar_append_last '\n' (x :: xs) (List.cons_ne_nil x xs) _, ← hx]
  simp [nlpat, pystr]

/-- A character that is not a quote, comma or space and occurs in no item
does not occur in the rendered comma-separated quoted-item list. -/
theorem not_mem_joinStr_quoted (ch : Char) (items : List PyStr)
    (hq : ch ≠ '"') (hc : ch ≠ ',') (hs : ch ≠ ' ')
    (h : ∀ i ∈ items, ch ∉ i) :
    ch ∉ joinStr (pystr ", ") (items.map quoteItem) := by
  induction items with
  | nil => simp [joinStr]
  | cons i is ih =>
    cases is with
    | nil =>
      rw [List.map_cons, List.map_nil, joinStr]
      intro hmem
      unfold quoteItem at hmem
      rcases List.mem_cons.1 hmem with h1 | h1
      · exact hq h1
      · rcases List.mem_append.1 h1 with h2 | h2
        · exact h i (List.mem_cons_self i []) h2
        · simp at h2
          exact hq h2
    | cons j js =>
      rw [List.map_cons, List.map_cons, joinStr]
      intro hmem
      rcases List.mem_append.1 hmem with h1 | h1
      · rcases List.mem_append.1 h1 with h2 | h2
        · unfold quoteItem at h2
          rcases List.mem_cons.1 h2 with h3 | h3
          · exact hq h3
          · rcases List.mem_append.1 h3 with h4 | h4
            · exact h i (List.mem_cons_self i _) h4
            · simp at h4
              exact hq h4
        · rcases show ch = ',' ∨ ch = ' ' by simpa [pystr] using h2 with h5 | h5
          · exact hc h5
          · exact hs h5
      · rw [← List.map_cons] at h1
        exact ih (fun x hx => h x (List.mem_cons_of_mem i hx)) h1

/-- A newline does not occur in a rendered well-formed value. -/
theorem not_nl_renderFVal (v : FVal) (hv : wfVal v) : '\n' ∉ renderFVal v := by
  cases v with
  | s w =>
    unfold renderFVal quoteItem
    intro hmem
    rcases List.mem_cons.1 hmem with h1 | h1
    · exact absurd h1 (by decide)
    · rcases List.mem_append.1 h1 with h2 | h2
      · exact hv.1 h2
      · simp at h2
  | b w =>
    cases w <;> simp [renderFVal, pystr]
  | l items =>
    unfold renderFVal
    intro hmem
    rcases List.mem_cons.1 hmem with h1 | h1
    · exact absurd h1 (by decide)
    · rcases List.mem_append.1 h1 with h2 | h2
      · exact not_mem_joinStr_quoted '\n' items (by decide) (by decide)
          (by decide) (fun i hi => (hv i hi).2.2.1) h2
      · simp at h2

/-- Rendered well-formed fields are good header lines. -/
theorem renderFMLine_good (p : PyStr × FVal) (h : wfField p) :
    goodLine (renderFMLine p) := by
  obtain ⟨hk, hv⟩ := h
  unfold renderFMLine
  refine ⟨?_, ?_, ?_⟩
  · cases hp1 : p.1 <;> simp [pystr]
  · intro hmem
    rcases List.mem_append.1 hmem with h1 | h1
    · rcases List.mem_append.1 h1 with h2 | h2
      · exact absurd rfl (hk.1 '\n' h2).2
      · simp [pystr] at h2
    · exact not_nl_renderFVal p.2 hv h1
  · intro c hc
    cases hp1 : p.1 with
    | nil =>
      rw [hp1] at hc
      have hh : (([] : PyStr) ++ pystr ": " ++ renderFVal p.2).head?
          = some ':' := rfl
      rw [hh] at hc
      injection hc with hc
      subst hc
      exact ⟨rfl, by decide⟩
    | cons d ds =>
      rw [hp1] at hc
      have hh : ((d :: ds : PyStr) ++ pystr ": " ++ renderFVal p.2).head?
          = some d := rfl
      rw [hh] at hc
      injection hc with hc
      subst hc
      exact hk.2.1 d (by rw [hp1]; rfl)

/-! ## The per-line round trip -/

theorem getLast?_cons_concat (x z : Char) (ys : PyStr) :
    (x :: (ys ++ [z])).getLast? = some z := by
  rw [show x :: (ys ++ [z]) = (x :: ys) ++ [z] from rfl, List.getLast?_concat]

/-- Stripping a well-formed key is the identity. -/
theorem pyStrip_wfKey (k : PyStr) (hk : wfKey k) : pyStrip k = k :=
  stripBoth_eq_self wsChar k (fun c hc => (hk.2.1 c hc).1) hk.2.2

/-- Both quote strips on a well-formed string value. -/
theorem strip_quotes_wfStr (w : PyStr) (h2 : w.head? ≠ some '"')
    (h3 : w.getLast? ≠ some '"') (h4 : w.head? ≠ some '\'')
    (h5 : w.getLast? ≠ some '\'') :
    pyStripChar '\'' (pyStripChar '"' ('"' :: (w ++ ['"']))) = w := by
  rw [pyStripChar_quotes '"' w h2 h3]
  refine stripBoth_eq_self _ w ?_ ?_
  · intro c hc
    simp only [decide_eq_false_iff_not]
    intro h
    exact h4 (by rw [hc, h])
  · intro c hc
    simp only [decide_eq_false_iff_not]
    intro h
    exact h5 (by rw [hc, h])

/-- Splitting the rendered line at its first colon recovers the key and the
space-prefixed rendered value. -/
theorem splitFirst_render (k : PyStr) (hk : wfKey k) (v : FVal) :
    splitFirst ':' (renderFMLine (k, v)) = some (k, ' ' :: renderFVal v) := by
  have hsh : renderFMLine (k, v) = k ++ ':' :: (' ' :: renderFVal v) := by
    unfold renderFMLine
    simp [pystr]
  rw [hsh]
  exact splitFirst_at k (fun hm => (hk.1 ':' hm).1 rfl) _

/-- The comma in the rendered quoted item list never occurs inside a
well-formed item's quoted form. -/
theorem comma_not_mem_quoteItem (i : PyStr) (hi : wfItem i) :
    ',' ∉ quoteItem i := by
  intro hm
  unfold quoteItem at hm
  rcases List.mem_cons.1 hm with h1 | h1
  · exact absurd h1 (by decide)
  · rcases List.mem_append.1 h1 with h2 | h2
    · exact hi.2.1 h2
    · simp at h2

/-- Splitting the rendered item list at commas recovers the quoted tokens
(the first bare, the rest with the joining space). -/
theorem split_quoted_tokens (i : PyStr) (rest : List PyStr)
    (h : ∀ x ∈ i :: rest, wfItem x) :
    splitOnChar ',' (joinStr (pystr ", ") ((i :: rest).map quoteItem))
      = quoteItem i :: rest.map (fun j => ' ' :: quoteItem j) := by
  induction rest generalizing i with
  | nil =>
    rw [List.map_cons, List.map_nil, joinStr, List.map_nil]
    exact splitOnChar_no_sep ','
      (quoteItem i) (comma_not_mem_quoteItem i (h i (List.mem_cons_self i [])))
  | cons j js ih =>
    rw [List.map_cons, List.map_cons, joinStr, ← List.map_cons]
    rw [show quoteItem i ++ pystr ", "
        ++ joinStr (pystr ", ") ((j :: js).map quoteItem)
      = quoteItem i ++ ',' :: (' ' ::
          joinStr (pystr ", ") ((j :: js).map quoteItem)) from by simp [pystr]]
    rw [splitOnChar_append_sep ',' (quoteItem i)
      (comma_not_mem_quoteItem i (h i (List.mem_cons_self i _))) _]
    have hinner := ih j (fun x hx => h x (List.mem_cons_of_mem i hx))
    rw [show splitOnChar ','
        (' ' :: joinStr (pystr ", ") ((j :: js).map quoteItem))
      = match splitOnChar ','
          (joinStr (pystr ", ") ((j :: js).map quoteItem)) with
        | [] => [[' ']]
        | hh :: tt => (' ' :: hh) :: tt from by
      rw [splitOnChar]
      simp]
    rw [hinner]
    rfl

/-- Stripping a quoted token recovers the item. -/
theorem strip_token (i : PyStr) (hi : wfItem i) :
    pyStripChar '\'' (pyStripChar '"' (pyStrip (quoteItem i))) = i := by
  have hstrip : pyStrip (quoteItem i) = quoteItem i := by
    refine stripBoth_eq_self wsChar _ ?_ ?_
    · intro c hc
      rw [show (quoteItem i).head? = some '"' from rfl] at hc
      injection hc with hc
      subst hc
      decide
    · intro c hc
      rw [show (quoteItem i).getLast? = some '"' from
        getLast?_cons_concat '"' '"' i] at hc
      injection hc with hc
      subst hc
      decide
  rw [hstrip]
  exact strip_quotes_wfStr i hi.2.2.2.1 hi.2.2.2.2.1 hi.2.2.2.2.2.1
    hi.2.2.2.2.2.2

/-- Stripping a space-prefixed quoted token recovers the item. -/
theorem strip_space_token (j : PyStr) (hj : wfItem j) :
    pyStripChar '\'' (pyStripChar '"' (pyStrip (' ' :: quoteItem j))) = j := by
  have hstrip : pyStrip (' ' :: quoteItem j) = quoteItem j := by
    refine pyStrip_space_cons _ ?_ ?_
    · intro c hc
      rw [show (quoteItem j).head? = some '"' from rfl] at hc
      injection hc with hc
      subst hc
      decide
    · intro c hc
      rw [show (quoteItem j).getLast? = some '"' from
        getLast?_cons_concat '"' '"' j] at hc
      injection hc with hc
      subst hc
      decide
  rw [hstrip]
  exact strip_quotes_wfStr j hj.2.2.2.1 hj.2.2.2.2.1 hj.2.2.2.2.2.1
    hj.2.2.2.2.2.2

/-- One parsed rendered line inserts the key with the bool-collapsed
value. -/
theorem parseFMLine_render (acc : FMap) (k : PyStr) (v : FVal)
    (hk : wfKey k) (hv : wfVal v) :
    parseFMLine acc (renderFMLine (k, v)) = dictInsert acc k (boolFix v) := by
  have hstep : parseFMLine acc (renderFMLine (k, v))
      = parseKV acc (pyStrip k) (pyStrip (' ' :: renderFVal v)) := by
    unfold parseFMLine
    rw [splitFirst_render k hk v]
  rw [hstep, pyStrip_wfKey k hk]
  cases v with
  | s w =>
    simp only [wfVal] at hv
    have hval : pyStrip (' ' :: renderFVal (.s w)) = renderFVal (.s w) := by
      refine pyStrip_space_cons _ ?_ ?_
      · intro c hc
        rw [show (renderFVal (.s w)).head? = some '"' from rfl] at hc
        injection hc with hc
        subst hc
        decide
      · intro c hc
        rw [show (renderFVal (.s w)).getLast? = some '"' from
          getLast?_cons_concat '"' '"' w] at hc
        injection hc with hc
        subst hc
        decide
    rw [hval]
    unfold parseKV
    rw [if_neg (by
      intro hcon
      have h1 := hcon.1
      rw [show (renderFVal (.s w)).head? = some '"' from rfl] at h1
      exact absurd h1 (by decide))]
    rw [show renderFVal (.s w) = '"' :: (w ++ ['"']) from rfl]
    rw [strip_quotes_wfStr w hv.2.1 hv.2.2.1 hv.2.2.2.1 hv.2.2.2.2]
    rfl
  | b b =>
    cases b with
    | true =>
      rw [show pyStrip (' ' :: renderFVal (.b true)) = pystr "true" from by
        decide]
      unfold parseKV
      rw [if_neg (by decide)]
      rw [show pyStripChar '\'' (pyStripChar '"' (pystr "true"))
        = pystr "true" from by decide]
      rfl
    | false =>
      rw [show pyStrip (' ' :: renderFVal (.b false)) = pystr "false" from by
        decide]
      unfold parseKV
      rw [if_neg (by decide)]
      rw [show pyStripChar '\'' (pyStripChar '"' (pystr "false"))
        = pystr "false" from by decide]
      rfl
  | l items =>
    simp only [wfVal] at hv
    have hval : pyStrip (' ' :: renderFVal (.l items)) = renderFVal (.l items) := by
      refine pyStrip_space_cons _ ?_ ?_
      · intro c hc
        rw [show (renderFVal (.l items)).head? = some '[' from rfl] at hc
        injection hc with hc
        subst hc
        decide
      · intro c hc
        rw [show (renderFVal (.l items)).getLast? = some ']' from
          getLast?_cons_concat '[' ']'
            (joinStr (pystr ", ") (items.map quoteItem))] at hc
        injection hc with hc
        subst hc
        decide
    rw [hval]
    unfold parseKV
    rw [if_pos ⟨rfl, getLast?_cons_concat '[' ']'
      (joinStr (pystr ", ") (items.map quoteItem))⟩]
    have hinner : ((renderFVal (.l items)).drop 1).dropLast
        = joinStr (pystr ", ") (items.map quoteItem) := by
      rw [show (renderFVal (.l items)).drop 1
        = joinStr (pystr ", ") (items.map quoteItem) ++ [']'] from rfl]
      exact List.dropLast_concat
    rw [hinner]
    cases items with
    | nil => rfl
    | cons i rest =>
      show dictInsert acc k (FVal.l
          ((((splitOnChar ','
            (joinStr (pystr ", ") ((i :: rest).map quoteItem))).map
            (fun item => pyStripChar '\'' (pyStripChar '"'
              (pyStrip item)))).filter (· ≠ []))))
        = dictInsert acc k (boolFix (FVal.l (i :: rest)))
      rw [split_quoted_tokens i rest hv]
      rw [List.map_cons, strip_token i (hv i (List.mem_cons_self i rest))]
      have hmap : (rest.map (fun j => ' ' :: quoteItem j)).map
          (fun item => pyStripChar '\'' (pyStripChar '"' (pyStrip item)))
          = rest := by
        rw [List.map_map]
        have : ∀ j ∈ rest,
            (fun item => pyStripChar '\'' (pyStripChar '"' (pyStrip item)))
              ((fun j => ' ' :: quoteItem j) j) = j := by
          intro j hj
          exact strip_space_token j (hv j (List.mem_cons_of_mem i hj))
        calc rest.map ((fun item =>
              pyStripChar '\'' (pyStripChar '"' (pyStrip item)))
              ∘ (fun j => ' ' :: quoteItem j))
            = rest.map id := List.map_congr_left this
          _ = rest := List.map_id rest
      rw [hmap]
      have hfilter : ((i :: rest).filter (· ≠ [])) = i :: rest := by
        rw [List.filter_eq_self]
        intro a ha
        simp [(hv a ha).1]
      rw [hfilter]
      rfl

/-- Folding the parser over the rendered lines of well-formed fields with
distinct keys appends the bool-collapsed fields. -/
theorem parse_fold_render (fields : FMap) :
    (∀ p ∈ fields, wfField p) → (fields.map Prod.fst).Nodup →
    ∀ acc : FMap, (∀ p ∈ fields, acc.any (fun q => q.1 = p.1) = false) →
    (fields.map renderFMLine).foldl parseFMLine acc
      = acc ++ fields.map (fun p => (p.1, boolFix p.2)) := by
  induction fields with
  | nil =>
    intro _ _ acc _
    simp
  | cons p ps ih =>
    intro hwf hnd acc hdisj
    rw [List.map_cons, List.foldl_cons]
    have hline : parseFMLine acc (renderFMLine p)
        = dictInsert acc p.1 (boolFix p.2) := by
      have h := parseFMLine_render acc p.1 p.2
        (hwf p (List.mem_cons_self p ps)).1 (hwf p (List.mem_cons_self p ps)).2
      simpa using h
    rw [hline]
    have hfresh : acc.any (fun q => q.1 = p.1) = false :=
      hdisj p (List.mem_cons_self p ps)
    have hins : dictInsert acc p.1 (boolFix p.2)
        = acc ++ [(p.1, boolFix p.2)] := by
      unfold dictInsert
      rw [if_neg (by simp [hfresh])]
    rw [hins]
    rw [List.map_cons, List.nodup_cons] at hnd
    have hres := ih (fun x hx => hwf x (List.mem_cons_of_mem p hx)) hnd.2
      (acc ++ [(p.1, boolFix p.2)])
      (by
        intro x hx
        rw [List.any_append]
        have h1 : acc.any (fun q => q.1 = x.1) = false :=
          hdisj x (List.mem_cons_of_mem p hx)
        have h2 : ([(p.1, boolFix p.2)] : FMap).any (fun q => q.1 = x.1)
            = false := by
          simp only [List.any_cons, List.any_nil, Bool.or_false]
          rw [decide_eq_false_iff_not]
          intro he
          exact hnd.1 (he ▸ List.mem_map_of_mem Prod.fst hx)
        rw [h1, h2]
        rfl)
    rw [hres]
    simp

/-! ## Lemmas about the storage upsert -/

theorem not_mem_pyReplace (ch : Char) (pat rep : PyStr) (hr : ch ∉ rep) :
    ∀ l : PyStr, ch ∉ l → ch ∉ pyReplace pat rep l := by
  intro l
  induction l using pyReplace.induct pat rep with
  | case1 =>
    intro _ h
    simp [pyReplace] at h
  | case2 c rest h ih =>
    intro hl hm
    rw [pyReplace, dif_pos h] at hm
    rcases List.mem_append.1 hm with h1 | h1
    · exact hr h1
    · exact ih (fun hd => hl (List.mem_of_mem_drop hd)) h1
  | case3 c rest h ih =>
    intro hl hm
    rw [pyReplace, dif_neg h] at hm
    rcases List.mem_cons.1 hm with h1 | h1
    · exact hl (h1 ▸ List.mem_cons_self c rest)
    · exact ih (fun hd => hl (List.mem_cons_of_mem c hd)) h1

/-- The inner field lines written by `format_frontmatter`. -/
def fmInner (t u p c s : PyStr) (tags : List PyStr) : List PyStr :=
  [pystr "title: \"" ++ pyReplace (pystr "\"") (pystr "\\\"") t ++ ['"'],
   pystr "url: \"" ++ u ++ ['"'],
   pystr "platform: \"" ++ p ++ ['"'],
   pystr "created: " ++ c,
   pystr "status: \"" ++ s ++ ['"'],
   pystr "tags: [" ++ joinStr (pystr ", ") (tags.map quoteItem) ++ [']']]

/-- The full header line block written by `format_frontmatter`. -/
def fmLines (t u p c s : PyStr) (tags : List PyStr) : List PyStr :=
  pystr "---" :: (fmInner t u p c s tags ++ [pystr "---"])

/-- `format_frontmatter` output followed by a body, as a joined line
block. -/
theorem format_decompose (t u p c s : PyStr) (tags : List PyStr)
    (md : PyStr) :
    format_frontmatter t u p c s tags ++ md
      = joinChar '\n' (fmLines t u p c s tags) ++ '\n' :: ('\n' :: md) := by
  have e1 : pystr "---\ntitle: \"" = pystr "---" ++ '\n' :: pystr "title: \"" :=
    rfl
  have e2 : pystr "\"\nurl: \"" = '"' :: ('\n' :: pystr "url: \"") := rfl
  have e3 : pystr "\"\nplatform: \"" = '"' :: ('\n' :: pystr "platform: \"") :=
    rfl
  have e4 : pystr "\"\ncreated: " = '"' :: ('\n' :: pystr "created: ") := rfl
  have e5 : pystr "\nstatus: \"" = '\n' :: pystr "status: \"" := rfl
  have e6 : pystr "\"\ntags: [" = '"' :: ('\n' :: pystr "tags: [") := rfl
  have e7 : pystr "]\n---\n\n" = ']' :: ('\n' :: (pystr "---" ++ ['\n', '\n'])) :=
    rfl
  unfold format_frontmatter fmLines fmInner
  rw [e1, e2, e3, e4, e5, e6, e7]
  simp [joinChar]

theorem splitOnChar_ne_nil (sep : Char) (l : PyStr) :
    splitOnChar sep l ≠ [] := by
  cases l with
  | nil => simp [splitOnChar]
  | cons c rest =>
    rw [splitOnChar]
    by_cases hc : c = sep
    · simp [hc]
    · simp only [hc, if_false]
      cases splitOnChar sep rest <;> simp

theorem joinChar_cons_ne (sep : Char) (l0 : PyStr) (rest : List PyStr)
    (h : rest ≠ []) :
    joinChar sep (l0 :: rest) = l0 ++ sep :: joinChar sep rest := by
  cases rest with
  | nil => exact absurd rfl h
  | cons a b => rw [joinChar]

theorem joinChar_splitOnChar (sep : Char) (l : PyStr) :
    joinChar sep (splitOnChar sep l) = l := by
  induction l with
  | cons c rest ih =>
    rw [splitOnChar]
    by_cases hc : c = sep
    · simp only [hc, if_true]
      rw [joinChar_cons_ne sep [] _ (splitOnChar_ne_nil sep rest), ih]
      rfl
    · simp only [hc, if_false]
      obtain ⟨h0, t0, he⟩ : ∃ h0 t0, splitOnChar sep rest = h0 :: t0 := by
        cases hs : splitOnChar sep rest with
        | nil => exact absurd hs (splitOnChar_ne_nil sep rest)
        | cons a b => exact ⟨a, b, rfl⟩
      rw [he]
      have hj := ih
      rw [he] at hj
      cases t0 with
      | nil =>
        rw [joinChar] at hj ⊢
        rw [hj]
      | cons t1 ts =>
        rw [joinChar_cons_ne sep h0 (t1 :: ts) (List.cons_ne_nil t1 ts)] at hj
        rw [joinChar_cons_ne sep (c :: h0) (t1 :: ts) (List.cons_ne_nil t1 ts),
          List.cons_append, hj]
  | nil => rfl

theorem splitOnChar_join_append (sep : Char) (lines : List PyStr)
    (hne : lines ≠ []) (h : ∀ l ∈ lines, sep ∉ l) (t : PyStr) :
    splitOnChar sep (joinChar sep lines ++ sep :: t)
      = lines ++ splitOnChar sep t := by
  induction lines with
  | nil => exact absurd rfl hne
  | cons l rest ih =>
    cases rest with
    | nil =>
      rw [joinChar, splitOnChar_append_sep sep l (h l (List.mem_cons_self l []))]
      rfl
    | cons l2 rs =>
      rw [joinChar, List.append_assoc, List.cons_append,
        splitOnChar_append_sep sep l (h l (List.mem_cons_self l _)),
        ih (List.cons_ne_nil l2 rs)
          (fun x hx => h x (List.mem_cons_of_mem l hx))]
      rfl

theorem scanClose_reach (ls : List PyStr) (h : ∀ l ∈ ls, l ≠ pystr "---")
    (body : List PyStr) :
    scanClose (ls ++ pystr "---" :: body) = some (ls ++ [pystr "---"], body) := by
  induction ls with
  | nil =>
    rw [List.nil_append, scanClose, if_pos rfl]
    rfl
  | cons l rest ih =>
    rw [List.cons_append, scanClose,
      if_neg (h l (List.mem_cons_self l rest)),
      ih (fun x hx => h x (List.mem_cons_of_mem l hx))]
    rfl

theorem scanFrontmatter_cons (l0 : PyStr) (rest : List PyStr) :
    scanFrontmatter (l0 :: rest)
      = if l0 = pystr "---" then
          (scanClose rest).map (fun p => (l0 :: p.1, p.2))
        else none := rfl

theorem ne_dashes_of_head (l : PyStr) (c : Char) (hc : l.head? = some c)
    (h : c ≠ '-') : l ≠ pystr "---" := by
  intro he
  rw [he] at hc
  injection hc with hc
  exact h hc.symm

theorem isPrefixOf_false_heads (pat l : PyStr) (a b : Char)
    (hp : pat.head? = some a) (hl : l.head? = some b) (h : a ≠ b) :
    pat.isPrefixOf l = false := by
  cases pat with
  | nil => simp at hp
  | cons x xs =>
    cases l with
    | nil => simp at hl
    | cons y ys =>
      injection hp with hp
      injection hl with hl
      rw [← hp, ← hl] at h
      exact isPrefixOf_false_of_head x y xs ys h

/-- `statusLineRewrite` fixes every line whose first character is not
`s`. -/
theorem statusRewrite_skip (s line : PyStr) (c : Char)
    (hc : line.head? = some c) (h : c ≠ 's') :
    statusLineRewrite s line = line := by
  unfold statusLineRewrite
  rw [isPrefixOf_false_heads (pystr "status:") line 's' c rfl hc
    (fun he => h he.symm)]
  simp

theorem statusRewrite_hit (s s1 : PyStr) :
    statusLineRewrite s (pystr "status: \"" ++ s1 ++ ['"'])
      = pystr "status: \"" ++ s ++ ['"'] := by
  unfold statusLineRewrite
  rw [show pystr "status: \"" ++ s1 ++ ['"']
    = pystr "status:" ++ (pystr " \"" ++ s1 ++ ['"']) from by simp [pystr],
    isPrefixOf_self_append]
  simp

/-- The status rewrite on a canonical written document: only the status
field changes and the body bytes are untouched. -/
theorem update_format (t u p c s1 s2 : PyStr) (tags : List PyStr)
    (md : PyStr)
    (het : '\n' ∉ pyReplace (pystr "\"") (pystr "\\\"") t)
    (hu : '\n' ∉ u) (hp : '\n' ∉ p) (hc : '\n' ∉ c) (hs1 : '\n' ∉ s1)
    (htags : ∀ x ∈ tags, '\n' ∉ x) :
    _update_frontmatter_status (format_frontmatter t u p c s1 tags ++ md) s2
      = format_frontmatter t u p c s2 tags ++ md := by
  have hjoin : '\n' ∉ joinStr (pystr ", ") (tags.map quoteItem) :=
    not_mem_joinStr_quoted '\n' tags (by decide) (by decide) (by decide)
      htags
  have hlines : ∀ l ∈ fmLines t u p c s1 tags, '\n' ∉ l := by
    intro l hl
    unfold fmLines fmInner at hl
    simp only [List.cons_append, List.nil_append, List.mem_cons,
      List.not_mem_nil, or_false] at hl
    rcases hl with h | h | h | h | h | h | h | h
    · subst h; exact (by decide : ('\n' ∉ pystr "---"))
    · subst h
      intro hm
      rcases List.mem_append.1 hm with h1 | h1
      · rcases List.mem_append.1 h1 with h2 | h2
        · exact absurd h2 (by decide)
        · exact het h2
      · exact absurd h1 (by decide)
    · subst h
      intro hm
      rcases List.mem_append.1 hm with h1 | h1
      · rcases List.mem_append.1 h1 with h2 | h2
        · exact absurd h2 (by decide)
        · exact hu h2
      · exact absurd h1 (by decide)
    · subst h
      intro hm
      rcases List.mem_append.1 hm with h1 | h1
      · rcases List.mem_append.1 h1 with h2 | h2
        · exact absurd h2 (by decide)
        · exact hp h2
      · exact absurd h1 (by decide)
    · subst h
      intro hm
      rcases List.mem_append.1 hm with h1 | h1
      · exact absurd h1 (by decide)
      · exact hc h1
    · subst h
      intro hm
      rcases List.mem_append.1 hm with h1 | h1
      · rcases List.mem_append.1 h1 with h2 | h2
        · exact absurd h2 (by decide)
        · exact hs1 h2
      · exact absurd h1 (by decide)
    · subst h
      intro hm
      rcases List.mem_append.1 hm with h1 | h1
      · rcases List.mem_append.1 h1 with h2 | h2
        · exact absurd h2 (by decide)
        · exact hjoin h2
      · exact absurd h1 (by decide)
    · subst h; exact (by decide : ('\n' ∉ pystr "---"))
  have hjc : joinChar '\n' (fmLines t u p c s1 tags)
      = pystr "---" ++ '\n' ::
          joinChar '\n' (fmInner t u p c s1 tags ++ [pystr "---"]) := by
    unfold fmLines
    exact joinChar_cons_ne '\n' _ _ (by simp [fmInner])
  rw [format_decompose t u p c s1 tags md]
  unfold _update_frontmatter_status
  have hstart : (pystr "---").isPrefixOf
      (joinChar '\n' (fmLines t u p c s1 tags) ++ '\n' :: ('\n' :: md))
      = true := by
    rw [hjc, List.append_assoc]
    exact isPrefixOf_self_append _ _
  rw [if_neg (by rw [hstart]; intro hx; exact hx rfl)]
  have hsplit : splitOnChar '\n'
      (joinChar '\n' (fmLines t u p c s1 tags) ++ '\n' :: ('\n' :: md))
      = fmLines t u p c s1 tags ++ ([] :: splitOnChar '\n' md) := by
    rw [splitOnChar_join_append '\n' _ (by simp [fmLines]) hlines]
    rw [show splitOnChar '\n' ('\n' :: md) = [] :: splitOnChar '\n' md from by
      rw [splitOnChar]; simp]
  rw [hsplit]
  have hnodash : ∀ x ∈ fmInner t u p c s1 tags, x ≠ pystr "---" := by
    intro x hx
    unfold fmInner at hx
    simp only [List.mem_cons, List.not_mem_nil, or_false] at hx
    rcases hx with h | h | h | h | h | h
    · exact h ▸ ne_dashes_of_head _ 't' rfl (by decide)
    · exact h ▸ ne_dashes_of_head _ 'u' rfl (by decide)
    · exact h ▸ ne_dashes_of_head _ 'p' rfl (by decide)
    · exact h ▸ ne_dashes_of_head _ 'c' rfl (by decide)
    · exact h ▸ ne_dashes_of_head _ 's' rfl (by decide)
    · exact h ▸ ne_dashes_of_head _ 't' rfl (by decide)
  have hscan : scanFrontmatter
      (fmLines t u p c s1 tags ++ ([] :: splitOnChar '\n' md))
      = some (fmLines t u p c s1 tags, [] :: splitOnChar '\n' md) := by
    rw [show fmLines t u p c s1 tags ++ ([] :: splitOnChar '\n' md)
      = pystr "---" :: (fmInner t u p c s1 tags
          ++ pystr "---" :: ([] :: splitOnChar '\n' md)) from by
        unfold fmLines
        simp]
    rw [scanFrontmatter_cons, if_pos rfl,
      scanClose_reach (fmInner t u p c s1 tags) hnodash]
    rfl
  rw [hscan]
  show joinChar '\n'
      ((fmLines t u p c s1 tags).map (statusLineRewrite s2))
      ++ '\n' :: joinChar '\n' ([] :: splitOnChar '\n' md)
    = format_frontmatter t u p c s2 tags ++ md
  have hmap : (fmLines t u p c s1 tags).map (statusLineRewrite s2)
      = fmLines t u p c s2 tags := by
    unfold fmLines fmInner
    simp only [List.map_cons, List.map_append, List.map_nil, List.cons_append,
      List.nil_append]
    rw [show statusLineRewrite s2 (pystr "---") = pystr "---" from rfl,
      statusRewrite_skip s2
        (pystr "title: \"" ++ pyReplace (pystr "\"") (pystr "\\\"") t ++ ['"'])
        't' rfl (by decide),
      statusRewrite_skip s2 (pystr "url: \"" ++ u ++ ['"']) 'u' rfl (by decide),
      statusRewrite_skip s2 (pystr "platform: \"" ++ p ++ ['"']) 'p' rfl
        (by decide),
      statusRewrite_skip s2 (pystr "created: " ++ c) 'c' rfl (by decide),
      statusRewrite_hit s2 s1,
      statusRewrite_skip s2
        (pystr "tags: [" ++ joinStr (pystr ", ") (tags.map quoteItem) ++ [']'])
        't' rfl (by decide)]
  rw [hmap]
  have hbody : joinChar '\n' ([] :: splitOnChar '\n' md) = '\n' :: md := by
    rw [joinChar_cons_ne '\n' [] _ (splitOnChar_ne_nil '\n' md),
      joinChar_splitOnChar]
    rfl
  rw [hbody, format_decompose t u p c s2 tags md]

theorem containsSub_append_mid (a pat b : PyStr) :
    containsSub (a ++ (pat ++ b)) pat = true := by
  induction a with
  | nil =>
    unfold containsSub
    rw [List.nil_append, subIdx_self_append]
    rfl
  | cons c a' ih =>
    unfold containsSub at ih ⊢
    rw [List.cons_append, subIdx]
    obtain ⟨n, hn⟩ : ∃ n, subIdx pat (a' ++ (pat ++ b)) = some n := by
      cases hs : subIdx pat (a' ++ (pat ++ b)) with
      | none => rw [hs] at ih; simp at ih
      | some n => exact ⟨n, rfl⟩
    rw [hn]
    split <;> rfl

theorem findContentFile_none (fs : FileSys) (url : PyStr)
    (h : ∀ f ∈ fs, containsSub f.2 url = false) :
    findContentFile fs url = none := by
  induction fs with
  | nil => rfl
  | cons f rest ih =>
    rw [findContentFile, if_neg (by rw [h f (List.mem_cons_self f rest)]; simp)]
    exact ih (fun x hx => h x (List.mem_cons_of_mem f hx))

theorem any_eq_false_key (fs : FileSys) (name : PyStr)
    (h : fs.any (fun f => f.1 = name) = false) :
    ∀ f ∈ fs, ¬ (f.1 = name) := by
  intro f hf he
  rw [List.any_eq_false] at h
  have := h f hf
  simp [he] at this

theorem fsWrite_pos (fs : FileSys) (name content : PyStr)
    (h : fs.any (fun f => f.1 = name) = true) :
    fsWrite fs name content
      = fs.map (fun f => if f.1 = name then (name, content) else f) := by
  unfold fsWrite
  rw [if_pos h]

theorem fsWrite_neg (fs : FileSys) (name content : PyStr)
    (h : ¬ fs.any (fun f => f.1 = name) = true) :
    fsWrite fs name content = fs ++ [(name, content)] := by
  unfold fsWrite
  rw [if_neg h]

theorem map_write_id (rest : FileSys) (name content : PyStr)
    (h : ∀ f ∈ rest, ¬ f.1 = name) :
    rest.map (fun f => if f.1 = name then (name, content) else f) = rest :=
  calc rest.map (fun f => if f.1 = name then (name, content) else f)
      = rest.map id :=
        List.map_congr_left (fun f hf => by rw [if_neg (h f hf)]; rfl)
    _ = rest := List.map_id rest

theorem find_map_write (url name content : PyStr)
    (hc : containsSub content url = true) :
    ∀ fs : FileSys, (∀ f ∈ fs, containsSub f.2 url = false) →
      fs.any (fun f => f.1 = name) = true →
      findContentFile
        (fs.map (fun f => if f.1 = name then (name, content) else f)) url
      = some (name, content) := by
  intro fs
  induction fs with
  | nil =>
    intro _ hany
    simp at hany
  | cons f rest ih =>
    intro h hany
    rw [List.map_cons]
    by_cases hf : f.1 = name
    · rw [if_pos hf, findContentFile, if_pos hc]
    · rw [if_neg hf, findContentFile,
        if_neg (by rw [h f (List.mem_cons_self f rest)]; simp)]
      refine ih (fun x hx => h x (List.mem_cons_of_mem f hx)) ?_
      rw [List.any_cons] at hany
      rcases Bool.or_eq_true_iff.1 hany with h1 | h1
      · exact absurd (by simpa using h1) hf
      · exact h1

theorem find_append_write (url name content : PyStr)
    (hc : containsSub content url = true) :
    ∀ fs : FileSys, (∀ f ∈ fs, containsSub f.2 url = false) →
      findContentFile (fs ++ [(name, content)]) url = some (name, content) := by
  intro fs
  induction fs with
  | nil =>
    intro _
    rw [List.nil_append, findContentFile, if_pos hc]
  | cons f rest ih =>
    intro h
    rw [List.cons_append, findContentFile,
      if_neg (by rw [h f (List.mem_cons_self f rest)]; simp)]
    exact ih (fun x hx => h x (List.mem_cons_of_mem f hx))

theorem findContentFile_write (fs : FileSys) (url : PyStr)
    (h : ∀ f ∈ fs, containsSub f.2 url = false) (name content : PyStr)
    (hc : containsSub content url = true) :
    findContentFile (fsWrite fs name content) url = some (name, content) := by
  by_cases hany : fs.any (fun f => f.1 = name) = true
  · rw [fsWrite_pos fs name content hany]
    exact find_map_write url name content hc fs h hany
  · rw [fsWrite_neg fs name content hany]
    exact find_append_write url name content hc fs h

theorem any_map_write (name content : PyStr) :
    ∀ fs : FileSys, fs.any (fun f => f.1 = name) = true →
      (fs.map (fun f => if f.1 = name then (name, content) else f)).any
        (fun f => f.1 = name) = true := by
  intro fs
  induction fs with
  | nil =>
    intro hany
    simp at hany
  | cons f rest ih =>
    intro hany
    rw [List.map_cons, List.any_cons]
    by_cases hf : f.1 = name
    · rw [if_pos hf]
      simp
    · rw [if_neg hf]
      rw [List.any_cons] at hany
      rcases Bool.or_eq_true_iff.1 hany with h1 | h1
      · exact absurd (by simpa using h1) hf
      · rw [ih h1]
        simp

theorem fsWrite_any_key (fs : FileSys) (name content : PyStr) :
    (fsWrite fs name content).any (fun f => f.1 = name) = true := by
  by_cases hany : fs.any (fun f => f.1 = name) = true
  · rw [fsWrite_pos fs name content hany]
    exact any_map_write name content fs hany
  · rw [fsWrite_neg fs name content hany, List.any_append]
    simp

theorem fsWrite_fsWrite (fs : FileSys) (name c1 c2 : PyStr) :
    fsWrite (fsWrite fs name c1) name c2 = fsWrite fs name c2 := by
  by_cases hany : fs.any (fun f => f.1 = name) = true
  · rw [fsWrite_pos fs name c1 hany,
      fsWrite_pos _ name c2 (by
        rw [← fsWrite_pos fs name c1 hany]
        exact fsWrite_any_key fs name c1),
      List.map_map, fsWrite_pos fs name c2 hany]
    refine List.map_congr_left ?_
    intro f _
    by_cases hf : f.1 = name <;> simp [hf]
  · have hkeys := any_eq_false_key fs name (Bool.not_eq_true _ ▸ hany)
    rw [fsWrite_neg fs name c1 hany,
      fsWrite_pos _ name c2 (by
        rw [← fsWrite_neg fs name c1 hany]
        exact fsWrite_any_key fs name c1),
      List.map_append, fsWrite_neg fs name c2 hany,
      map_write_id fs name c2 hkeys]
    simp

theorem filter_no_url (fs : FileSys) (url : PyStr)
    (h : ∀ f ∈ fs, containsSub f.2 url = false) :
    fs.filter (fun f => containsSub f.2 url) = [] := by
  induction fs with
  | nil => rfl
  | cons f rest ih =>
    rw [List.filter_cons,
      if_neg (by rw [h f (List.mem_cons_self f rest)]; simp)]
    exact ih (fun x hx => h x (List.mem_cons_of_mem f hx))

theorem count_fsWrite (fs : FileSys) (url : PyStr)
    (h : ∀ f ∈ fs, containsSub f.2 url = false)
    (hnames : (fs.map Prod.fst).Nodup) (name content : PyStr)
    (hc : containsSub content url = true) :
    countContaining (fsWrite fs name content) url = 1 := by
  unfold countContaining
  by_cases hany : fs.any (fun f => f.1 = name) = true
  · rw [fsWrite_pos fs name content hany]
    induction fs with
    | nil => simp at hany
    | cons f rest ih =>
      rw [List.map_cons, List.filter_cons]
      rw [List.map_cons, List.nodup_cons] at hnames
      by_cases hf : f.1 = name
      · rw [if_pos hf,
          if_pos (show containsSub ((name, content) : PyStr × PyStr).2 url
            = true from hc)]
        rw [map_write_id rest name content (by
          intro q hq he
          apply hnames.1
          have hqm : q.1 ∈ rest.map Prod.fst :=
            List.mem_map_of_mem Prod.fst hq
          rw [he, ← hf] at hqm
          exact hqm)]
        rw [filter_no_url rest url
          (fun x hx => h x (List.mem_cons_of_mem f hx))]
        rfl
      · rw [if_neg hf,
          if_neg (by rw [h f (List.mem_cons_self f rest)]; simp)]
        refine ih (fun x hx => h x (List.mem_cons_of_mem f hx)) hnames.2 ?_
        rw [List.any_cons] at hany
        rcases Bool.or_eq_true_iff.1 hany with h1 | h1
        · exact absurd (by simpa using h1) hf
        · exact h1
  · rw [fsWrite_neg fs name content hany, List.filter_append,
      filter_no_url fs url h, List.nil_append, List.filter_cons,
      if_pos (show containsSub ((name, content) : PyStr × PyStr).2 url
        = true from hc)]
    rfl

theorem fsWrite_length_congr (fs : FileSys) (name c1 c2 : PyStr) :
    (fsWrite fs name c1).length = (fsWrite fs name c2).length := by
  by_cases hany : fs.any (fun f => f.1 = name) = true
  · rw [fsWrite_pos fs name c1 hany, fsWrite_pos fs name c2 hany,
      List.length_map, List.length_map]
  · rw [fsWrite_neg fs name c1 hany, fsWrite_neg fs name c2 hany,
      List.length_append, List.length_append]
    rfl

/-! ## Lemmas for the media-localization rewrite -/

theorem pyReplace_nil (pat rep : PyStr) : pyReplace pat rep [] = [] := by
  rw [pyReplace]

theorem joinChar_single (sep : Char) (l : PyStr) : joinChar sep [l] = l := rfl

theorem pyReplace_cons_ne (pat rep : PyStr) (c : Char) (l : PyStr)
    (hc : pat.head? ≠ some c) :
    pyReplace pat rep (c :: l) = c :: pyReplace pat rep l := by
  rw [pyReplace, dif_neg]
  rintro ⟨hne, hpre⟩
  cases pat with
  | nil => exact hne rfl
  | cons p ps =>
    simp only [List.isPrefixOf, Bool.and_eq_true, beq_iff_eq] at hpre
    exact hc (by rw [hpre.1]; rfl)

/-- No character of `a` can begin an occurrence of `pat`, so `pyReplace`
copies `a` verbatim and continues on the remainder. -/
theorem pyReplace_skip (pat rep a l : PyStr)
    (ha : ∀ c ∈ a, pat.head? ≠ some c) :
    pyReplace pat rep (a ++ l) = a ++ pyReplace pat rep l := by
  induction a with
  | nil => rfl
  | cons c a' ih =>
    rw [List.cons_append,
      pyReplace_cons_ne pat rep c _ (ha c (List.mem_cons_self c a')),
      ih (fun x hx => ha x (List.mem_cons_of_mem c hx)), List.cons_append]

/-- `pyReplace` replaces an occurrence of the pattern sitting at the head
of the text. -/
theorem pyReplace_at (pat rep b : PyStr) (hpat : pat ≠ []) :
    pyReplace pat rep (pat ++ b) = rep ++ pyReplace pat rep b := by
  cases pat with
  | nil => exact absurd rfl hpat
  | cons p ps =>
    rw [List.cons_append, pyReplace,
      dif_pos ⟨hpat, isPrefixOf_self_append (p :: ps) b⟩]
    congr 1
    rw [show ((p :: (ps ++ b)).drop (p :: ps).length)
      = (ps ++ b).drop ps.length from rfl, List.drop_left]

theorem pyReplace_no_head (pat rep l : PyStr)
    (h : ∀ c ∈ l, pat.head? ≠ some c) :
    pyReplace pat rep l = l := by
  induction l with
  | nil => exact pyReplace_nil pat rep
  | cons c l' ih =>
    rw [pyReplace_cons_ne pat rep c l' (h c (List.mem_cons_self c l')),
      ih (fun x hx => h x (List.mem_cons_of_mem c hx))]

theorem dropWhile_append_single (p : Char → Bool) (A : PyStr) (c : Char)
    (hc : p c = false) :
    ∃ B, (A ++ [c]).dropWhile p = B ++ [c] := by
  induction A with
  | nil => exact ⟨[], by simp [List.dropWhile_cons, hc]⟩
  | cons a A' ih =>
    by_cases hp : p a
    · obtain ⟨B, hB⟩ := ih
      exact ⟨B, by rw [List.cons_append, List.dropWhile_cons, hp]; simpa using hB⟩
    · exact ⟨a :: A', by rw [List.cons_append, List.dropWhile_cons, if_neg hp]⟩

/-- Stripping whitespace from a line whose first character is not
whitespace keeps that first character in place. -/
theorem pyStrip_head (c : Char) (X : PyStr) (hc : wsChar c = false) :
    ∃ Y, pyStrip (c :: X) = c :: Y := by
  unfold pyStrip stripBoth
  rw [List.dropWhile_cons, hc]
  simp only [Bool.false_eq_true, if_false, List.reverse_cons]
  obtain ⟨B, hB⟩ := dropWhile_append_single wsChar X.reverse c hc
  refine ⟨B.reverse, ?_⟩
  rw [hB, List.reverse_append]
  rfl

theorem isPrefixOf_false_of_head' (pat s : PyStr) (p c : Char)
    (hp : pat.head? = some p) (hs : s.head? = some c) (hne : p ≠ c) :
    pat.isPrefixOf s = false := by
  cases pat with
  | nil => simp at hp
  | cons p' pat' =>
    cases s with
    | nil => simp at hs
    | cons c' s' =>
      injection hp with hp
      injection hs with hs
      subst hp
      subst hs
      simp [List.isPrefixOf, hne]

/-- A line whose first character is not whitespace and differs from the
head of each metadata pattern is never skipped by `_clean_metadata`. -/
theorem skipLine_false_head (c : Char) (X : PyStr) (hws : wsChar c = false)
    (h1 : c ≠ '来') (h2 : c ≠ '作') (h3 : c ≠ '发') (h4 : c ≠ '阅')
    (h5 : c ≠ '点') (h6 : c ≠ '收') (h7 : c ≠ '分') :
    skipLine (c :: X) = false := by
  obtain ⟨Y, hY⟩ := pyStrip_head c X hws
  unfold skipLine
  rw [hY,
    isPrefixOf_false_of_head' (pystr "来源：") (c :: Y) '来' c rfl rfl
      (Ne.symm h1),
    isPrefixOf_false_of_head' (pystr "作者：") (c :: Y) '作' c rfl rfl
      (Ne.symm h2),
    isPrefixOf_false_of_head' (pystr "发布时间：") (c :: Y) '发' c rfl rfl
      (Ne.symm h3),
    isPrefixOf_false_of_head' (pystr "阅读：") (c :: Y) '阅' c rfl rfl
      (Ne.symm h4),
    isPrefixOf_false_of_head' (pystr "点赞：") (c :: Y) '点' c rfl rfl
      (Ne.symm h5),
    isPrefixOf_false_of_head' (pystr "收藏：") (c :: Y) '收' c rfl rfl
      (Ne.symm h6),
    isPrefixOf_false_of_head' (pystr "分享：") (c :: Y) '分' c rfl rfl
      (Ne.symm h7)]
  rfl

/-! ## Claim theorems: coordinator, workflow, language detection -/

/-- C1: the coordinator's fetch classifies the URL; for the login-walled
platform profile (wechat) it attempts the headless-browser tier first and
returns its result immediately on success, otherwise falling back to the
fixed order hosted-extraction-API, readability-proxy-API, headless-browser
and returning the first non-none result; when every tier returns none the
result is the explicit failure value `none` (the embedding is a total
function: no exception escapes). -/
theorem c1_fetch_tier_order {α : Type}
    (firecrawl jina playwright : PyStr → Option α) (url : PyStr) :
    ContentFetcher.fetch firecrawl jina playwright url
      = fetchSpec firecrawl jina playwright url
    ∧ (firecrawl url = none → jina url = none → playwright url = none →
        ContentFetcher.fetch firecrawl jina playwright url = none) := by
  constructor
  · unfold ContentFetcher.fetch fetchSpec
    cases hf : firecrawl url <;> cases hj : jina url <;>
      cases hp : playwright url <;>
      simp [List.find?, hf, hj, hp]
  · intro hf hj hp
    unfold ContentFetcher.fetch
    simp [hf, hj, hp]

/-- Witness for C1 at a concrete URL and all-failing tiers. -/
theorem c1_fetch_tier_order_witness :
    ContentFetcher.fetch (α := Unit) (fun _ => none) (fun _ => none)
      (fun _ => none) (pystr "https://example.com/article") = none :=
  (c1_fetch_tier_order (fun _ => none) (fun _ => none) (fun _ => none)
    (pystr "https://example.com/article")).2 rfl rfl rfl

/-- C10: when the input contains no letter-class character at all, the
ratio's denominator is zero and `is_english_text` returns `false` via the
explicit zero-total guard rather than failing. -/
theorem c10_is_english_zero_guard (text : PyStr)
    (h : (text.filter isLetterClass).length = 0) :
    is_english_text text = false := by
  unfold is_english_text
  simp [h]

/-- Witness for C10 on a digits-and-punctuation input. -/
theorem c10_is_english_zero_guard_witness :
    is_english_text (pystr "123 !? 456") = false :=
  c10_is_english_zero_guard (pystr "123 !? 456") (by decide)

/-- C3 counterexample: the transition `read → valuable` succeeds, but the
resulting record is the input with only `status` changed — no timestamp
field is stamped for the `valuable` status (the record carries only
`extracted_at` and `read_at`, and both stay `none`), contradicting the
claim that every successful transition stamps a timestamp field
corresponding to the new status. -/
theorem c3_transition_counterexample :
    transition_record 42
        ⟨pystr "https://example.com/a", pystr "T", pystr "unknown",
          .read, 7, none, none, none, false, false⟩
        .valuable
      = .ok ⟨pystr "https://example.com/a", pystr "T", pystr "unknown",
          .valuable, 7, none, none, none, false, false⟩ := by
  rfl

/-- C3 amended: `transition_record` fails with the invalid-transition error
exactly when the target is outside the current status's allowed set
(pending→extracted; extracted→read; read→valuable|archived;
valuable→creating|knowledge_base; archived, creating and knowledge_base
terminal), returning an error without producing any mutated record; on
success it updates the status and stamps `extracted_at` for →extracted and
`read_at` for →read, while transitions to the remaining statuses change
the status only (no timestamp field exists for them).  In particular
read→valuable and read→archived succeed and read→pending fails. -/
theorem c3_transition_behavior (now : Nat) (r : ContentRecord)
    (target : ContentStatus) :
    (can_transition r.status target = false →
      transition_record now r target = .error (pystr "Invalid transition"))
    ∧ (can_transition r.status target = true →
      transition_record now r target = .ok { r with
        status := target,
        extracted_at :=
          if target = .extracted then some now else r.extracted_at,
        read_at := if target = .read then some now else r.read_at })
    ∧ (can_transition r.status target = true ↔
        (r.status, target) ∈ [
          (ContentStatus.pending, ContentStatus.extracted),
          (ContentStatus.extracted, ContentStatus.read),
          (ContentStatus.read, ContentStatus.valuable),
          (ContentStatus.read, ContentStatus.archived),
          (ContentStatus.valuable, ContentStatus.creating),
          (ContentStatus.valuable, ContentStatus.knowledge_base)]) := by
  refine ⟨fun h => ?_, fun h => ?_, ?_⟩
  · unfold transition_record
    simp [h]
  · unfold transition_record
    rcases hx : target <;> simp_all [can_transition, VALID_TRANSITIONS]
  · cases hs : r.status <;> cases ht : target <;> decide

/-- Witness for C3: a concrete successful `read → archived` transition and
a concrete rejected `read → pending` transition. -/
theorem c3_transition_behavior_witness :
    transition_record 9
        ⟨pystr "u", pystr "t", pystr "p", .read, 1, none, some 3, none,
          false, false⟩ .archived
      = .ok ⟨pystr "u", pystr "t", pystr "p", .archived, 1, none, some 3,
          none, false, false⟩
    ∧ transition_record 9
        ⟨pystr "u", pystr "t", pystr "p", .read, 1, none, some 3, none,
          false, false⟩ .pending
      = .error (pystr "Invalid transition") := by
  have r : ContentRecord :=
    ⟨pystr "u", pystr "t", pystr "p", .read, 1, none, some 3, none,
      false, false⟩
  constructor
  · have h := (c3_transition_behavior 9
      ⟨pystr "u", pystr "t", pystr "p", .read, 1, none, some 3, none,
        false, false⟩ .archived).2.1 (by decide)
    simpa using h
  · exact (c3_transition_behavior 9
      ⟨pystr "u", pystr "t", pystr "p", .read, 1, none, some 3, none,
        false, false⟩ .pending).1 (by decide)

/-- `_sanitize_filename` always produces either "untitled" or the first 80
characters of a string of kept characters. -/
theorem sanitize_filename_shape (name : PyStr) :
    ∃ y : PyStr, (∀ c ∈ y, isKeptFilenameChar c = true) ∧
      _sanitize_filename name =
        (if y.take 80 = [] then pystr "untitled" else y.take 80) := by
  refine ⟨_, ?_, rfl⟩
  intro c hc
  exact List.of_mem_filter hc

/-- C2 counterexample: serializing a mapping with a boolean value and
parsing it back yields the boolean's lowercase string rendering, not the
boolean — the round trip is not the identity on boolean-valued
mappings. -/
theorem c2_roundtrip_counterexample :
    _read_frontmatter (serializeFM [(pystr "is_english", FVal.b true)])
      = [(pystr "is_english", FVal.s (pystr "true"))]
    ∧ _read_frontmatter (serializeFM [(pystr "is_english", FVal.b true)])
      ≠ [(pystr "is_english", FVal.b true)] := by
  decide

/-- C2 amended: for a well-formed mapping (keys without colons, newlines,
surrounding whitespace or a leading hyphen; strings without newlines or
boundary quote characters; list items additionally nonempty and
comma-free; distinct keys), parsing the serialized header block yields the
original mapping with every boolean collapsed to its lowercase string
rendering — the round trip is the identity on the string- and list-valued
fields and turns booleans into strings. -/
theorem c2_roundtrip_amended (fields : FMap) (h : wfFMap fields) :
    _read_frontmatter (serializeFM fields)
      = fields.map (fun p => (p.1, boolFix p.2)) := by
  cases hf : fields with
  | nil => decide
  | cons p ps =>
    rw [← hf]
    have hne : fields ≠ [] := by rw [hf]; exact List.cons_ne_nil p ps
    have hgood : ∀ l ∈ fields.map renderFMLine, goodLine l := by
      intro l hl
      obtain ⟨q, hq, rfl⟩ := List.mem_map.1 hl
      exact renderFMLine_good q (h.1 q hq)
    have hmapne : fields.map renderFMLine ≠ [] :=
      fun hmm => hne (List.map_eq_nil_iff.1 hmm)
    rw [serializeFM_shape fields hne]
    unfold _read_frontmatter
    rw [fmMatch_canonical (fields.map renderFMLine) [] hgood hmapne]
    show (splitOnChar '\n'
        (joinChar '\n' (fields.map renderFMLine))).foldl parseFMLine []
      = fields.map (fun p => (p.1, boolFix p.2))
    rw [splitOnChar_joinChar '\n' _ hmapne
      (fun l hl => (hgood l hl).2.1)]
    rw [parse_fold_render fields h.1 h.2 [] (fun q _ => rfl)]
    rfl

/-- Witness for C2 (amended) on a concrete three-field mapping with a
string, a boolean and a list. -/
theorem c2_roundtrip_amended_witness :
    _read_frontmatter (serializeFM
        [(pystr "title", FVal.s (pystr "My Note")),
          (pystr "is_english", FVal.b true),
          (pystr "tags", FVal.l [pystr "a", pystr "metis"])])
      = [(pystr "title", FVal.s (pystr "My Note")),
          (pystr "is_english", FVal.s (pystr "true")),
          (pystr "tags", FVal.l [pystr "a", pystr "metis"])] := by
  have h := c2_roundtrip_amended
    [(pystr "title", FVal.s (pystr "My Note")),
      (pystr "is_english", FVal.b true),
      (pystr "tags", FVal.l [pystr "a", pystr "metis"])]
    (by decide)
  simpa using h

/-- The written document text contains its URL verbatim (inside the
`url:` header line). -/
theorem format_contains_url (t u p now s : PyStr) (tags : List PyStr)
    (md : PyStr) :
    containsSub (format_frontmatter t u p now s tags ++ md) u = true := by
  obtain ⟨rest, hrest⟩ : ∃ rest,
      format_frontmatter t u p now s tags ++ md
        = (pystr "---\ntitle: \"" ++ pyReplace (pystr "\"") (pystr "\\\"") t
            ++ pystr "\"\nurl: \"") ++ (u ++ rest) := by
    refine ⟨pystr "\"\nplatform: \"" ++ p ++ pystr "\"\ncreated: " ++ now
      ++ pystr "\nstatus: \"" ++ s ++ pystr "\"\ntags: ["
      ++ joinStr (pystr ", ") (tags.map quoteItem) ++ pystr "]\n---\n\n"
      ++ md, ?_⟩
    unfold format_frontmatter
    simp [List.append_assoc]
  rw [hrest]
  exact containsSub_append_mid _ u _

/-- C5: `save_to_obsidian` is an idempotent upsert keyed by the URL.  When
a document containing the URL exists, it rewrites that document's status
and returns its path, adding no file; on a collection with distinct
filenames and no document containing the URL, calling it twice with the
same content leaves the collection with exactly one document containing
the URL — the one file written by the first call, whose header carries the
second call's status (and the first call's creation timestamp) above the
unchanged body. -/
theorem c5_save_upsert (now1 now2 : PyStr) (pc : ProcessedContent)
    (s1 s2 : PyStr) (fs : FileSys)
    (hscan : ∀ f ∈ fs, containsSub f.2 pc.url = false)
    (hnames : (fs.map Prod.fst).Nodup)
    (ht : '\n' ∉ pc.title) (hu : '\n' ∉ pc.url)
    (hpn : '\n' ∉ pc.platform_name) (hn1 : '\n' ∉ now1) (hs1 : '\n' ∉ s1) :
    (∀ (fs' : FileSys) (name old : PyStr),
      findContentFile fs' pc.url = some (name, old) →
      save_to_obsidian now2 pc s2 fs'
        = (name, fsWrite fs' name (_update_frontmatter_status old s2)))
    ∧ (save_to_obsidian now2 pc s2 (save_to_obsidian now1 pc s1 fs).2).1
      = (save_to_obsidian now1 pc s1 fs).1
    ∧ (save_to_obsidian now2 pc s2 (save_to_obsidian now1 pc s1 fs).2).2
      = fsWrite fs ((_sanitize_filename pc.title).take 50 ++ pystr ".md")
          (format_frontmatter pc.title pc.url pc.platform_name now1 s2
            [pc.platform_name, pystr "metis"] ++ pc.markdown)
    ∧ countContaining
        (save_to_obsidian now2 pc s2 (save_to_obsidian now1 pc s1 fs).2).2
        pc.url = 1
    ∧ (save_to_obsidian now2 pc s2 (save_to_obsidian now1 pc s1 fs).2).2.length
      = (save_to_obsidian now1 pc s1 fs).2.length := by
  have hupsert : ∀ (fs' : FileSys) (name old : PyStr),
      findContentFile fs' pc.url = some (name, old) →
      save_to_obsidian now2 pc s2 fs'
        = (name, fsWrite fs' name (_update_frontmatter_status old s2)) := by
    intro fs' name old hfind
    unfold save_to_obsidian
    rw [hfind]
  have het : '\n' ∉ pyReplace (pystr "\"") (pystr "\\\"") pc.title :=
    not_mem_pyReplace '\n' (pystr "\"") (pystr "\\\"") (by decide) pc.title ht
  have htags : ∀ x ∈ [pc.platform_name, pystr "metis"], '\n' ∉ x := by
    intro x hx
    rcases List.mem_cons.1 hx with h1 | h1
    · exact h1 ▸ hpn
    · rcases List.mem_cons.1 h1 with h2 | h2
      · exact h2 ▸ (by decide : '\n' ∉ pystr "metis")
      · simp at h2
  have hr1 : save_to_obsidian now1 pc s1 fs
      = ((_sanitize_filename pc.title).take 50 ++ pystr ".md",
          fsWrite fs ((_sanitize_filename pc.title).take 50 ++ pystr ".md")
            (format_frontmatter pc.title pc.url pc.platform_name now1 s1
              [pc.platform_name, pystr "metis"] ++ pc.markdown)) := by
    unfold save_to_obsidian
    rw [findContentFile_none fs pc.url hscan]
  have hcont1 : containsSub
      (format_frontmatter pc.title pc.url pc.platform_name now1 s1
        [pc.platform_name, pystr "metis"] ++ pc.markdown) pc.url = true :=
    format_contains_url _ _ _ _ _ _ _
  have hfind2 : findContentFile (save_to_obsidian now1 pc s1 fs).2 pc.url
      = some ((_sanitize_filename pc.title).take 50 ++ pystr ".md",
          format_frontmatter pc.title pc.url pc.platform_name now1 s1
            [pc.platform_name, pystr "metis"] ++ pc.markdown) := by
    rw [hr1]
    exact findContentFile_write fs pc.url hscan _ _ hcont1
  have hupd : _update_frontmatter_status
      (format_frontmatter pc.title pc.url pc.platform_name now1 s1
        [pc.platform_name, pystr "metis"] ++ pc.markdown) s2
      = format_frontmatter pc.title pc.url pc.platform_name now1 s2
          [pc.platform_name, pystr "metis"] ++ pc.markdown :=
    update_format pc.title pc.url pc.platform_name now1 s1 s2
      [pc.platform_name, pystr "metis"] pc.markdown het hu hpn hn1 hs1 htags
  have hr2 : save_to_obsidian now2 pc s2 (save_to_obsidian now1 pc s1 fs).2
      = ((_sanitize_filename pc.title).take 50 ++ pystr ".md",
          fsWrite (save_to_obsidian now1 pc s1 fs).2
            ((_sanitize_filename pc.title).take 50 ++ pystr ".md")
            (format_frontmatter pc.title pc.url pc.platform_name now1 s2
              [pc.platform_name, pystr "metis"] ++ pc.markdown)) := by
    rw [hupsert (save_to_obsidian now1 pc s1 fs).2 _ _ hfind2, hupd]
  have hfs2 : (save_to_obsidian now2 pc s2
      (save_to_obsidian now1 pc s1 fs).2).2
      = fsWrite fs ((_sanitize_filename pc.title).take 50 ++ pystr ".md")
          (format_frontmatter pc.title pc.url pc.platform_name now1 s2
            [pc.platform_name, pystr "metis"] ++ pc.markdown) := by
    rw [hr2]
    show fsWrite (save_to_obsidian now1 pc s1 fs).2 _ _ = _
    rw [hr1]
    show fsWrite (fsWrite fs _ _) _ _ = _
    rw [fsWrite_fsWrite]
  refine ⟨hupsert, ?_, hfs2, ?_, ?_⟩
  · rw [hr2, hr1]
  · rw [hfs2]
    exact count_fsWrite fs pc.url hscan hnames _ _
      (format_contains_url _ _ _ _ _ _ _)
  · rw [hfs2, hr1]
    show _ = (fsWrite fs _ _).length
    exact fsWrite_length_congr fs _ _ _

/-- Witness for C5: two saves of the same content into an empty collection,
ending with a single document carrying the second status. -/
theorem c5_save_upsert_witness :
    (save_to_obsidian (pystr "2024-02-02T00:00:00")
        ⟨pystr "T", pystr "Body", [], pystr "https://example.com/a",
          pystr "twitter", []⟩
        (pystr "extracted")
        (save_to_obsidian (pystr "2024-01-01T00:00:00")
          ⟨pystr "T", pystr "Body", [], pystr "https://example.com/a",
            pystr "twitter", []⟩
          (pystr "pending") []).2).2
      = fsWrite []
          ((_sanitize_filename (pystr "T")).take 50 ++ pystr ".md")
          (format_frontmatter (pystr "T") (pystr "https://example.com/a")
            (pystr "twitter") (pystr "2024-01-01T00:00:00")
            (pystr "extracted") [pystr "twitter", pystr "metis"]
            ++ pystr "Body") :=
  (c5_save_upsert (pystr "2024-01-01T00:00:00") (pystr "2024-02-02T00:00:00")
    ⟨pystr "T", pystr "Body", [], pystr "https://example.com/a",
      pystr "twitter", []⟩
    (pystr "pending") (pystr "extracted") []
    (by simp) (by simp) (by decide) (by decide) (by decide) (by decide)
    (by decide)).2.2.1

/-- C7: when a file's content is malformed as a header — it does not begin
with the `---` delimiter, or no closing delimiter is found by the header
regex — the update is abandoned: `_write_frontmatter_update` produces no
new content (`none`), so the file's bytes are never rewritten, partially
or otherwise. -/
theorem c7_malformed_header_abandons (content : PyStr) (updates : FMap)
    (h : ¬ (pystr "---").isPrefixOf content = true ∨ fmMatch content = none) :
    _write_frontmatter_update content updates = none := by
  unfold _write_frontmatter_update
  rcases h with h | h
  · rw [if_pos h]
  · by_cases hp : (pystr "---").isPrefixOf content = true
    · rw [if_neg (fun hc => hc hp), h]
    · rw [if_pos hp]

/-- Witness for C7: a file with no header at all, and a file whose header
is opened but never closed; neither is rewritten. -/
theorem c7_malformed_header_abandons_witness :
    _write_frontmatter_update (pystr "# just a note\nbody") [] = none
    ∧ _write_frontmatter_update (pystr "---\ntitle: oops") [] = none :=
  ⟨c7_malformed_header_abandons (pystr "# just a note\nbody") []
      (Or.inl (by decide)),
    c7_malformed_header_abandons (pystr "---\ntitle: oops") []
      (Or.inr (by decide))⟩

/-- C4: updating a document whose content is a well-formed header block
(`---`, newline-free field lines that start with neither whitespace nor a
hyphen, `---`) followed by arbitrary body bytes rewrites the file to the
re-serialized merged header followed by exactly the original body bytes;
the merged header mapping is the parsed original mapping united with the
updates — keys of the update mapping take their updated values, and every
other key (including previously-unknown ones) keeps its original parsed
value. -/
theorem c4_update_preserves_body_and_merges (lines : List PyStr)
    (updates : FMap) (body : PyStr)
    (hg : ∀ l ∈ lines, goodLine l) (hne : lines ≠ [])
    (hu : (updates.map Prod.fst).Nodup) :
    _write_frontmatter_update
        (pystr "---\n" ++ (joinChar '\n' lines ++ (nlpat ++ body))) updates
      = some (serializeFM (dictUpdate
          (_read_frontmatter
            (pystr "---\n" ++ (joinChar '\n' lines ++ (nlpat ++ body))))
          updates) ++ body)
    ∧ (∀ k v, fmLookup updates k = some v →
        fmLookup (dictUpdate
          (_read_frontmatter
            (pystr "---\n" ++ (joinChar '\n' lines ++ (nlpat ++ body))))
          updates) k = some v)
    ∧ (∀ k, fmLookup updates k = none →
        fmLookup (dictUpdate
          (_read_frontmatter
            (pystr "---\n" ++ (joinChar '\n' lines ++ (nlpat ++ body))))
          updates) k
        = fmLookup (_read_frontmatter
            (pystr "---\n" ++ (joinChar '\n' lines ++ (nlpat ++ body)))) k) := by
  refine ⟨?_, fun k v h =>
      (fmLookup_dictUpdate updates hu _).1 k v h,
    fun k h => (fmLookup_dictUpdate updates hu _).2 k h⟩
  unfold _write_frontmatter_update
  have hpre : (pystr "---").isPrefixOf
      (pystr "---\n" ++ (joinChar '\n' lines ++ (nlpat ++ body))) = true := by
    rw [show pystr "---\n" ++ (joinChar '\n' lines ++ (nlpat ++ body))
      = '-' :: '-' :: '-' :: ('\n' :: (joinChar '\n' lines ++ (nlpat ++ body)))
      from rfl]
    rw [show pystr "---" = ['-', '-', '-'] from rfl]
    simp [List.isPrefixOf]
  rw [if_neg (fun hc => hc hpre), fmMatch_canonical lines body hg hne]
  show some (serializeFM (dictUpdate
        (_read_frontmatter
          (pystr "---\n" ++ (joinChar '\n' lines ++ (nlpat ++ body)))) updates)
      ++ (pystr "---\n" ++ (joinChar '\n' lines ++ (nlpat ++ body))).drop
          ((joinChar '\n' lines).length + 8))
    = some (serializeFM (dictUpdate
        (_read_frontmatter
          (pystr "---\n" ++ (joinChar '\n' lines ++ (nlpat ++ body)))) updates)
      ++ body)
  rw [drop_canonical (joinChar '\n' lines) body]

/-- Witness for C4 at a concrete two-field header, a status update and a
note body. -/
theorem c4_update_preserves_body_and_merges_witness :
    _write_frontmatter_update
        (pystr "---\n"
          ++ (joinChar '\n' [pystr "title: \"T\"", pystr "status: \"pending\""]
            ++ (nlpat ++ pystr "\n\nBody text")))
        [(pystr "status", FVal.s (pystr "read"))]
      = some (serializeFM (dictUpdate
          (_read_frontmatter
            (pystr "---\n"
              ++ (joinChar '\n'
                  [pystr "title: \"T\"", pystr "status: \"pending\""]
                ++ (nlpat ++ pystr "\n\nBody text"))))
          [(pystr "status", FVal.s (pystr "read"))]) ++ pystr "\n\nBody text") :=
  (c4_update_preserves_body_and_merges
    [pystr "title: \"T\"", pystr "status: \"pending\""]
    [(pystr "status", FVal.s (pystr "read"))]
    (pystr "\n\nBody text")
    (by decide) (by decide) (by decide)).1

/-- C9: filename derivation strips the attribution prefix up to the first
colon when non-empty text follows, removes filesystem-unsafe characters,
replaces spaces with hyphens, keeps only word characters, CJK characters,
hyphens and underscores, truncates to 80 characters, falls back to
"untitled" when empty, and in particular maps "Jane on X: Big Idea" to
"Big-Idea" (hence the stored filename "Big-Idea.md"). -/
theorem c9_sanitize_filename (name : PyStr) :
    _sanitize_filename (pystr "Jane on X: Big Idea") = pystr "Big-Idea"
    ∧ (_sanitize_filename (pystr "Jane on X: Big Idea")).take 50
        ++ pystr ".md" = pystr "Big-Idea.md"
    ∧ _sanitize_filename (pystr "??!!") = pystr "untitled"
    ∧ (_sanitize_filename name).length ≤ 80
    ∧ _sanitize_filename name ≠ []
    ∧ (∀ c ∈ _sanitize_filename name, isKeptFilenameChar c = true) := by
  obtain ⟨y, hy, he⟩ := sanitize_filename_shape name
  refine ⟨by decide, by decide, by decide, ?_, ?_, ?_⟩
  · rw [he]
    split
    · decide
    · exact List.length_take_le 80 y
  · rw [he]
    split
    · decide
    · assumption
  · intro c hc
    rw [he] at hc
    by_cases h0 : y.take 80 = []
    · rw [if_pos h0] at hc
      have hall : ∀ c ∈ pystr "untitled", isKeptFilenameChar c = true := by
        decide
      exact hall c hc
    · rw [if_neg h0] at hc
      exact hy c (List.mem_of_mem_take hc)

/-- C6 counterexample: content of exactly 100 characters containing no
verification marker is rejected by both API tiers (the source requires
strictly more than 100 characters), refuting the claim that content of
length at least 100 matching no marker is not rejected. -/
theorem c6_length_counterexample :
    (List.replicate 100 'a' : PyStr).length = 100
    ∧ containsSub (List.replicate 100 'a') (pystr "环境异常") = false
    ∧ containsSub (List.replicate 100 'a') (pystr "完成验证") = false
    ∧ firecrawlFetchResult true (some (List.replicate 100 'a')) = none
    ∧ jinaFetchResult 200 (List.replicate 100 'a') = none := by
  decide

/-- C6 amended: with an API credential configured (respectively an HTTP 200
response), the hosted-extraction tier and the readability-proxy tier
return none exactly when the content's length is at most 100 characters
(strictly more than 100 is required) or the marker `环境异常` occurs
anywhere in the body or the marker `完成验证` occurs in the first 500
characters; content longer than 100 characters matching neither marker is
accepted unchanged. -/
theorem c6_content_checks (md text : PyStr) :
    (firecrawlFetchResult true (some md) = none ↔
      md.length ≤ 100 ∨ containsSub md (pystr "环境异常") = true
        ∨ containsSub (md.take 500) (pystr "完成验证") = true)
    ∧ (jinaFetchResult 200 text = none ↔
      text.length ≤ 100 ∨ containsSub text (pystr "环境异常") = true
        ∨ containsSub (text.take 500) (pystr "完成验证") = true)
    ∧ (¬ (md.length ≤ 100 ∨ containsSub md (pystr "环境异常") = true
          ∨ containsSub (md.take 500) (pystr "完成验证") = true) →
        firecrawlFetchResult true (some md) = some md) := by
  have hfc : firecrawlFetchResult true (some md) =
      (if md = [] then none
       else if containsSub md (pystr "环境异常")
           || containsSub (md.take 500) (pystr "完成验证") then none
       else if md.length > 100 then some md else none) := rfl
  refine ⟨?_, ?_, ?_⟩
  · rw [hfc]
    by_cases h0 : md = []
    · subst h0
      simp [containsSub, subIdx, pystr]
    · rw [if_neg h0]
      by_cases h1 : containsSub md (pystr "环境异常")
          || containsSub (md.take 500) (pystr "完成验证")
      · rw [if_pos h1]
        rw [Bool.or_eq_true] at h1
        simp only [true_iff]
        tauto
      · rw [if_neg h1]
        rw [Bool.or_eq_true] at h1
        push_neg at h1
        simp only [ne_eq, Bool.not_eq_true] at h1
        by_cases h2 : md.length > 100
        · rw [if_pos h2]
          simp only [reduceCtorEq, false_iff, h1.1, h1.2]
          push_neg
          refine ⟨by omega, by simp [h1.1], by simp [h1.2]⟩
        · rw [if_neg h2]
          simp only [true_iff]
          left
          omega
  · unfold jinaFetchResult
    by_cases h2 : text.length > 100
    · rw [if_pos ⟨rfl, h2⟩]
      by_cases h1 : containsSub text (pystr "环境异常")
          || containsSub (text.take 500) (pystr "完成验证")
      · rw [if_pos h1]
        rw [Bool.or_eq_true] at h1
        simp only [true_iff]
        tauto
      · rw [if_neg h1]
        rw [Bool.or_eq_true] at h1
        push_neg at h1
        simp only [ne_eq, Bool.not_eq_true] at h1
        simp only [reduceCtorEq, false_iff, h1.1, h1.2]
        push_neg
        refine ⟨by omega, by simp [h1.1], by simp [h1.2]⟩
    · rw [if_neg (by tauto)]
      simp only [true_iff]
      left
      omega
  · intro h
    push_neg at h
    obtain ⟨hl, h1, h2⟩ := h
    simp only [ne_eq, Bool.not_eq_true] at h1 h2
    rw [hfc]
    have h0 : md ≠ [] := by
      intro he
      rw [he] at hl
      simp at hl
    rw [if_neg h0, if_neg (by simp [h1, h2]), if_pos (by omega)]

theorem c6_content_checks_witness :
    ¬ ((List.replicate 101 'a' : PyStr).length ≤ 100
        ∨ containsSub (List.replicate 101 'a') (pystr "环境异常") = true
        ∨ containsSub ((List.replicate 101 'a' : PyStr).take 500)
            (pystr "完成验证") = true)
    ∧ firecrawlFetchResult true (some (List.replicate 101 'a'))
        = some (List.replicate 101 'a') :=
  ⟨by decide, (c6_content_checks (List.replicate 101 'a') []).2.2 (by decide)⟩

/-- C8: for a body containing the same remote image URL both as a Markdown
image reference `![img](…)` and as an HTML `<img src="…">` attribute,
`extract_image_urls` discovers the URL exactly once (the four pattern
scans are de-duplicated into a set), the download stores it under the
fixed-length-hash name `img_<md5(url)[:12]>.jpg`, and `process_content`
rewrites both occurrences in the markup to that same relative local path.
The network and the hash are oracles: the response carries the JPEG
bytes and the hexdigest contains no newline. -/
theorem c8_media_localization (md5hex : PyStr → PyStr)
    (fetchBytes : PyStr → Option (List Nat))
    (hfetch : fetchBytes (pystr "https://cdn.example.com/a.jpg")
      = some [255, 216, 255, 224])
    (hnl : '\n' ∉ (md5hex (pystr "https://cdn.example.com/a.jpg")).take 12) :
    extract_image_urls
        (pystr "![img](https://cdn.example.com/a.jpg)\n<img src=\"https://cdn.example.com/a.jpg\">")
      = [pystr "https://cdn.example.com/a.jpg"]
    ∧ process_content md5hex fetchBytes (pystr "https://example.com/post")
        (pystr "![img](https://cdn.example.com/a.jpg)\n<img src=\"https://cdn.example.com/a.jpg\">")
        (pystr "T")
      = { title := pystr "T"
          markdown := pystr "![img]("
            ++ (pystr "img_"
              ++ (md5hex (pystr "https://cdn.example.com/a.jpg")).take 12
              ++ pystr ".jpg")
            ++ pystr ")\n<img src=\""
            ++ (pystr "img_"
              ++ (md5hex (pystr "https://cdn.example.com/a.jpg")).take 12
              ++ pystr ".jpg")
            ++ pystr "\">"
          images := [pystr "img_"
            ++ (md5hex (pystr "https://cdn.example.com/a.jpg")).take 12
            ++ pystr ".jpg"]
          url := pystr "https://example.com/post"
          platform_name := pystr "unknown" } := by
  have hx : extract_image_urls
      (pystr "![img](https://cdn.example.com/a.jpg)\n<img src=\"https://cdn.example.com/a.jpg\">")
      = [pystr "https://cdn.example.com/a.jpg"] := by decide
  refine ⟨hx, ?_⟩
  have hguess : _guess_extension (pystr "https://cdn.example.com/a.jpg")
      [255, 216, 255, 224] = pystr ".jpg" := by decide
  have hdl : download_image md5hex fetchBytes
      (pystr "https://cdn.example.com/a.jpg")
      = some (pystr "img_"
          ++ (md5hex (pystr "https://cdn.example.com/a.jpg")).take 12
          ++ pystr ".jpg") := by
    unfold download_image
    rw [hfetch]
    show some (pystr "img_"
        ++ (md5hex (pystr "https://cdn.example.com/a.jpg")).take 12
        ++ _guess_extension (pystr "https://cdn.example.com/a.jpg")
            [255, 216, 255, 224]) = _
    rw [hguess]
  have hhttp : (pystr "http").isPrefixOf
      (pystr "https://cdn.example.com/a.jpg") = true := by decide
  have hplat : (detect_platform (pystr "https://example.com/post")).name
      = pystr "unknown" := by decide
  have hB : (pystr "![img](https://cdn.example.com/a.jpg)\n<img src=\"https://cdn.example.com/a.jpg\">")
      = pystr "![img](" ++ (pystr "https://cdn.example.com/a.jpg"
        ++ (pystr ")\n<img src=\""
          ++ (pystr "https://cdn.example.com/a.jpg" ++ pystr "\">"))) := by
    decide
  have hrepl : pyReplace (pystr "https://cdn.example.com/a.jpg")
      (pystr "img_"
        ++ (md5hex (pystr "https://cdn.example.com/a.jpg")).take 12
        ++ pystr ".jpg")
      (pystr "![img](https://cdn.example.com/a.jpg)\n<img src=\"https://cdn.example.com/a.jpg\">")
      = pystr "![img](" ++ ((pystr "img_"
          ++ (md5hex (pystr "https://cdn.example.com/a.jpg")).take 12
          ++ pystr ".jpg")
        ++ (pystr ")\n<img src=\"" ++ ((pystr "img_"
          ++ (md5hex (pystr "https://cdn.example.com/a.jpg")).take 12
          ++ pystr ".jpg") ++ pystr "\">"))) := by
    rw [hB,
      pyReplace_skip (pystr "https://cdn.example.com/a.jpg") _
        (pystr "![img](") _ (by decide),
      pyReplace_at (pystr "https://cdn.example.com/a.jpg") _ _ (by decide),
      pyReplace_skip (pystr "https://cdn.example.com/a.jpg") _
        (pystr ")\n<img src=\"") _ (by decide),
      pyReplace_at (pystr "https://cdn.example.com/a.jpg") _ _ (by decide),
      pyReplace_no_head (pystr "https://cdn.example.com/a.jpg") _
        (pystr "\">") (by decide)]
  have hsplit : (pystr ")\n<img src=\"" : PyStr)
      = pystr ")" ++ '\n' :: pystr "<img src=\"" := by decide
  have h1 : '\n' ∉ pystr "![img](" ++ (pystr "img_"
      ++ (md5hex (pystr "https://cdn.example.com/a.jpg")).take 12
      ++ pystr ".jpg") ++ pystr ")" := by
    intro hm
    rcases List.mem_append.1 hm with hm' | hm'
    · rcases List.mem_append.1 hm' with hm'' | hm''
      · exact absurd hm'' (by decide)
      · rcases List.mem_append.1 hm'' with h3 | h3
        · rcases List.mem_append.1 h3 with h4 | h4
          · exact absurd h4 (by decide)
          · exact hnl h4
        · exact absurd h3 (by decide)
    · exact absurd hm' (by decide)
  have h2 : '\n' ∉ pystr "<img src=\"" ++ (pystr "img_"
      ++ (md5hex (pystr "https://cdn.example.com/a.jpg")).take 12
      ++ pystr ".jpg") ++ pystr "\">" := by
    intro hm
    rcases List.mem_append.1 hm with hm' | hm'
    · rcases List.mem_append.1 hm' with hm'' | hm''
      · exact absurd hm'' (by decide)
      · rcases List.mem_append.1 hm'' with h3 | h3
        · rcases List.mem_append.1 h3 with h4 | h4
          · exact absurd h4 (by decide)
          · exact hnl h4
        · exact absurd h3 (by decide)
    · exact absurd hm' (by decide)
  have hassoc : pystr "![img](" ++ ((pystr "img_"
        ++ (md5hex (pystr "https://cdn.example.com/a.jpg")).take 12
        ++ pystr ".jpg")
      ++ (pystr ")\n<img src=\"" ++ ((pystr "img_"
        ++ (md5hex (pystr "https://cdn.example.com/a.jpg")).take 12
        ++ pystr ".jpg") ++ pystr "\">")))
      = (pystr "![img](" ++ (pystr "img_"
          ++ (md5hex (pystr "https://cdn.example.com/a.jpg")).take 12
          ++ pystr ".jpg") ++ pystr ")")
        ++ '\n' :: (pystr "<img src=\"" ++ (pystr "img_"
          ++ (md5hex (pystr "https://cdn.example.com/a.jpg")).take 12
          ++ pystr ".jpg") ++ pystr "\">") := by
    rw [hsplit]
    simp [List.append_assoc]
  have hs1 : skipLine (pystr "![img](" ++ (pystr "img_"
      ++ (md5hex (pystr "https://cdn.example.com/a.jpg")).take 12
      ++ pystr ".jpg") ++ pystr ")") = false :=
    skipLine_false_head '!' (pystr "[img](" ++ (pystr "img_"
        ++ (md5hex (pystr "https://cdn.example.com/a.jpg")).take 12
        ++ pystr ".jpg") ++ pystr ")")
      (by decide) (by decide) (by decide) (by decide) (by decide)
      (by decide) (by decide) (by decide)
  have hs2 : skipLine (pystr "<img src=\"" ++ (pystr "img_"
      ++ (md5hex (pystr "https://cdn.example.com/a.jpg")).take 12
      ++ pystr ".jpg") ++ pystr "\">") = false :=
    skipLine_false_head '<' (pystr "img src=\"" ++ (pystr "img_"
        ++ (md5hex (pystr "https://cdn.example.com/a.jpg")).take 12
        ++ pystr ".jpg") ++ pystr "\">")
      (by decide) (by decide) (by decide) (by decide) (by decide)
      (by decide) (by decide) (by decide)
  have hclean : _clean_metadata ((pystr "![img](" ++ (pystr "img_"
        ++ (md5hex (pystr "https://cdn.example.com/a.jpg")).take 12
        ++ pystr ".jpg") ++ pystr ")")
      ++ '\n' :: (pystr "<img src=\"" ++ (pystr "img_"
        ++ (md5hex (pystr "https://cdn.example.com/a.jpg")).take 12
        ++ pystr ".jpg") ++ pystr "\">"))
      = (pystr "![img](" ++ (pystr "img_"
          ++ (md5hex (pystr "https://cdn.example.com/a.jpg")).take 12
          ++ pystr ".jpg") ++ pystr ")")
        ++ '\n' :: (pystr "<img src=\"" ++ (pystr "img_"
          ++ (md5hex (pystr "https://cdn.example.com/a.jpg")).take 12
          ++ pystr ".jpg") ++ pystr "\">") := by
    unfold _clean_metadata
    rw [splitOnChar_append_sep '\n' _ h1 _, splitOnChar_no_sep '\n' _ h2]
    simp only [List.filter_cons, List.filter_nil, hs1, hs2, Bool.not_false,
      if_true]
    rw [joinChar_cons_ne '\n' _ [_] (by simp), joinChar_single]
  have hassoc2 : (pystr "![img](" ++ (pystr "img_"
        ++ (md5hex (pystr "https://cdn.example.com/a.jpg")).take 12
        ++ pystr ".jpg") ++ pystr ")")
      ++ '\n' :: (pystr "<img src=\"" ++ (pystr "img_"
        ++ (md5hex (pystr "https://cdn.example.com/a.jpg")).take 12
        ++ pystr ".jpg") ++ pystr "\">")
      = pystr "![img]("
        ++ (pystr "img_"
          ++ (md5hex (pystr "https://cdn.example.com/a.jpg")).take 12
          ++ pystr ".jpg")
        ++ pystr ")\n<img src=\""
        ++ (pystr "img_"
          ++ (md5hex (pystr "https://cdn.example.com/a.jpg")).take 12
          ++ pystr ".jpg")
        ++ pystr "\">" := by
    rw [hsplit]
    simp [List.append_assoc]
  simp only [process_content, hx, List.foldl_cons, List.foldl_nil, hhttp,
    hdl, List.nil_append, List.map_cons, List.map_nil, if_true]
  rw [hrepl, hassoc, hclean, hassoc2, hplat]

/-- C8 witness at concrete oracles: the network returns the JPEG signature
bytes for the CDN URL and the hash oracle a fixed hex string. -/
theorem c8_media_localization_witness :
    (fun u : PyStr => if u = pystr "https://cdn.example.com/a.jpg"
        then some [255, 216, 255, 224] else (none : Option (List Nat)))
      (pystr "https://cdn.example.com/a.jpg") = some [255, 216, 255, 224]
    ∧ '\n' ∉ ((fun _ : PyStr => pystr "0123456789abcdef")
        (pystr "https://cdn.example.com/a.jpg")).take 12
    ∧ (extract_image_urls
        (pystr "![img](https://cdn.example.com/a.jpg)\n<img src=\"https://cdn.example.com/a.jpg\">")
      = [pystr "https://cdn.example.com/a.jpg"]
    ∧ process_content (fun _ : PyStr => pystr "0123456789abcdef")
        (fun u : PyStr => if u = pystr "https://cdn.example.com/a.jpg"
          then some [255, 216, 255, 224] else none)
        (pystr "https://example.com/post")
        (pystr "![img](https://cdn.example.com/a.jpg)\n<img src=\"https://cdn.example.com/a.jpg\">")
        (pystr "T")
      = { title := pystr "T"
          markdown :=
            pystr "![img](img_0123456789ab.jpg)\n<img src=\"img_0123456789ab.jpg\">"
          images := [pystr "img_0123456789ab.jpg"]
          url := pystr "https://example.com/post"
          platform_name := pystr "unknown" }) :=
  ⟨by decide, by decide,
    c8_media_localization (fun _ : PyStr => pystr "0123456789abcdef")
      (fun u : PyStr => if u = pystr "https://cdn.example.com/a.jpg"
        then some [255, 216, 255, 224] else none)
      (by decide) (by decide)⟩

end Metis
